import Mathlib

/- Verification of the nagarika CSV-to-JSON fixture generator.

   The definitions below are shallow embeddings of the Python sources:
   ConvMulti embeds src/convert_multi_level_categories.py and
   CsvJson embeds src/csv_to_json.py (whose slugify, remove_known_suffixes
   and ensure_unique_slug are textually identical to those of
   csv_to_json_v3.py, and whose create_data_and_urls body is textually
   identical to that of csv_to_json_v2.py).

   A pandas cell is modelled as Option String, where none encodes NaN;
   a csv.DictReader cell is modelled as String, since a missing column is
   read back as the empty string. Python dicts are modelled as association
   lists where assignment conses the new binding at the front, so lookup
   returns the most recent binding. -/

deriving instance DecidableEq for Except

/-- Association-list lookup; models Python dict lookup on dicts built by
assignment, where the most recent binding stands at the front. -/
def afind {α β : Type} [DecidableEq α] (k : α) : List (α × β) → Option β
  | [] => none
  | (a, b) :: rest => if a = k then some b else afind k rest

/-- Python str.strip on the character list: drop whitespace from both ends. -/
def trimChars (l : List Char) : List Char :=
  ((l.dropWhile Char.isWhitespace).reverse.dropWhile Char.isWhitespace).reverse

/-- Python str.strip. -/
def pyStrip (s : String) : String := String.mk (trimChars s.data)

/-- Python str.endswith. -/
def strEndsWith (s t : String) : Bool := t.data.isSuffixOf s.data

/-- Python str.startswith. -/
def strStartsWith (s t : String) : Bool := t.data.isPrefixOf s.data

/-- Drop the last n characters, as slicing off a known suffix does. -/
def strDropRight (s : String) (n : Nat) : String :=
  String.mk (s.data.take (s.data.length - n))

/-- One character of the slug normalization of csv_to_json.py slugify:
spaces and slashes become hyphens, parentheses are dropped, letters are
lowercased (Python applies lower to the whole string first, and lower is a
character-wise map that fixes whitespace, so trimming first is equivalent). -/
def slugChar (c : Char) : List Char :=
  if c = ' ' then ['-']
  else if c = '(' then []
  else if c = ')' then []
  else if c = '/' then ['-']
  else [c.toLower]

/-- Collapse runs of hyphens to a single hyphen, as the re.sub over the
pattern of repeated hyphens does in slugify. -/
def collapseHyphens : List Char → List Char
  | [] => []
  | [c] => [c]
  | a :: b :: rest =>
    if a = '-' && b = '-' then collapseHyphens (b :: rest)
    else a :: collapseHyphens (b :: rest)

/-- slugify from csv_to_json.py: lowercase, trim, spaces and slashes to
hyphens, parentheses stripped, repeated hyphens collapsed. The external
python-slugify library imported by convert_multi_level_categories.py is
modelled by this same base normalization (spec section 4.3). -/
def slugify (text : String) : String :=
  String.mk (collapseHyphens ((trimChars text.data).flatMap slugChar))

/-- Join hierarchy-path components with the fixed separator. -/
def joinBar (parts : List String) : String := String.intercalate "|" parts

namespace ConvMulti

/-- TYPE_MAP lookup with default CONTEXT, from convert_multi_level_categories.py. -/
def typeMap (fileType : String) : String :=
  if fileType = "context_menu" then "CONTEXT"
  else if fileType = "sequence_menu" then "SEQUENCE"
  else if fileType = "unit_menu" then "UNIT"
  else if fileType = "explanation_sequence" then "EXPLANATION"
  else if fileType = "explanation_unit" then "EXPLANATION"
  else "CONTEXT"

/-- A kalari.Categories fixture record as built by create_category. -/
structure Category where
  pk : Nat
  name : String
  slug : String
  type : String
  parent : Option Nat
  has_data : Nat
  is_active : Nat
  created_at : String
  updated_at : String
  sort : Nat
  category_type : Option String
deriving DecidableEq, Repr

/-- A kalari.CategoriesData fixture record as built by create_category_data. -/
structure CategoryData where
  pk : Nat
  title : String
  category_id : Option Nat
  direction : String
  created_at : String
deriving DecidableEq, Repr

/-- A kalari.CategoriesDataUrls fixture record as built by create_category_data_url. -/
structure DataUrl where
  pk : Nat
  path : String
  type : String
  category_data_id : Nat
deriving DecidableEq, Repr

/-- A kalari.CategoriesMovements fixture record as built by create_category_movement. -/
structure Movement where
  pk : Nat
  name : String
  category_data_movements_id : Nat
  type : String
  is_related_only : Bool
  related_explanation_slug : Option String
  start_time : Option Int
  end_time : Option Int
deriving DecidableEq, Repr

/-- The mutable state of a CategoryConverter instance together with the four
growing output collections of generate_categories_json. -/
structure ConvState where
  pk_counter_categories : Nat
  pk_counter_data : Nat
  pk_counter_data_urls : Nat
  pk_counter_movements : Nat
  timestamp : String
  pk_map : List (String × Nat)
  sort_counters : List (String × Nat)
  explanation_slug_map : List (String × List (String × String))
  categories : List Category
  categories_data : List CategoryData
  categories_data_urls : List DataUrl
  categories_movements : List Movement
deriving DecidableEq, Repr

/-- One source row: the level cells in column order plus the optional media
and timing cells, each Option encoding pandas notna. -/
structure Row where
  levels : List (Option String)
  front : Option String
  movieFileName : Option String
  side : Option String
  start_time : Option Int
  end_time : Option Int
deriving DecidableEq, Repr

/-- The level cell of the row at depth i, none when NaN or out of range. -/
def cellAt (row : Row) (i : Nat) : Option String := row.levels.getD i none

/-- The trimmed level cell at depth i, with "" for an absent cell. -/
def cellTrim (row : Row) (i : Nat) : String :=
  match cellAt row i with
  | some v => pyStrip v
  | none => ""

/-- The contents of current_path after the level loop of process_row: the
loop writes the trimmed cell at every populated index, in ascending index
order, and leaves the initial "" in every other slot, so slot j holds the
trimmed cell when populated and "" otherwise. -/
def rowPath (row : Row) : List String :=
  (List.range row.levels.length).map (cellTrim row)

/-- The full_key for the hierarchy portion up to level i of this row. -/
def rowPrefixKey (row : Row) (i : Nat) : String :=
  joinBar ((rowPath row).take (i + 1))

/-- The indices of the populated level cells (the non_null list). -/
def rowNonNull (row : Row) : List Nat :=
  (List.range row.levels.length).filter (fun i => (cellAt row i).isSome)

/-- The deepest populated level (max of non_null, 0 when empty). -/
def leafIndexOf (row : Row) : Nat := (rowNonNull row).foldl max 0

/-- create_category: the slug is the normalized name, with the -un-dev
suffix for the context menu, and category_type is set on root nodes only. -/
def create_category (st : ConvState) (nm : String) (parent_pk : Option Nat)
    (hasData : Nat) (fileType : String) (srt : Nat) : Category :=
  let slug0 := slugify nm
  let slug := if fileType = "context_menu" then slug0 ++ "-un-dev" else slug0
  { pk := st.pk_counter_categories, name := nm, slug := slug,
    type := typeMap fileType, parent := parent_pk, has_data := hasData,
    is_active := 1, created_at := st.timestamp, updated_at := st.timestamp,
    sort := srt,
    category_type := if parent_pk = none then some "ODISSI" else none }

/-- One iteration of the level loop of process_row at index i: skip an
unpopulated cell; otherwise initialize the sort counter for the full key,
then either reuse the registered node or create and register a new one. -/
def levelStep (fileType : String) (row : Row) (leafIndex : Nat)
    (t : ConvState × Option Nat) (i : Nat) : ConvState × Option Nat :=
  match cellAt row i with
  | none => t
  | some _ =>
    let st := t.1
    let fullKey := rowPrefixKey row i
    let counters :=
      match afind fullKey st.sort_counters with
      | none => (fullKey, 1) :: st.sort_counters
      | some _ => st.sort_counters
    match afind fullKey st.pk_map with
    | some pk => ({ st with sort_counters := counters }, some pk)
    | none =>
      let hd : Nat := if i = leafIndex then 1 else 0
      let parent_pk : Option Nat :=
        if i = 0 then none else afind (joinBar ((rowPath row).take i)) st.pk_map
      let srt := (afind fullKey counters).getD 1
      let cat := create_category st ((cellAt row i).getD "") parent_pk hd fileType srt
      ({ st with pk_counter_categories := st.pk_counter_categories + 1,
                 sort_counters := (fullKey, srt + 1) :: counters,
                 pk_map := (fullKey, cat.pk) :: st.pk_map,
                 categories := st.categories ++ [cat] },
       some cat.pk)

/-- front_file resolution in process_row: the front cell when notna, else
the movie file name alias; the stripped value must be non-empty (Python
truthiness). A notna front cell that strips to "" yields no record and the
alias is not consulted, matching the elif chain. -/
def frontFileOf (row : Row) : Option String :=
  match row.front with
  | some v => if pyStrip v = "" then none else some (pyStrip v)
  | none =>
    match row.movieFileName with
    | some v => if pyStrip v = "" then none else some (pyStrip v)
    | none => none

/-- side_file resolution in process_row. -/
def sideFileOf (row : Row) : Option String :=
  match row.side with
  | some v => if pyStrip v = "" then none else some (pyStrip v)
  | none => none

/-- The path root chosen from the file type in create_category_data_url. -/
def pathRootFor (fileType : String) : String :=
  if strStartsWith fileType "context" then "odissi/context/"
  else if strStartsWith fileType "sequence" then "odissi/sequence/"
  else if strStartsWith fileType "unit" then "odissi/unit/"
  else if strStartsWith fileType "explanation" then "odissi/explanation/"
  else "odissi/" ++ fileType ++ "/"

/-- Replace every occurrence of ct.604 by ct_604, the literal typo fix of
create_category_data_url, left to right and non-overlapping. -/
def replaceCt : List Char → List Char
  | 'c' :: 't' :: '.' :: '6' :: '0' :: '4' :: rest =>
    'c' :: 't' :: '_' :: '6' :: '0' :: '4' :: replaceCt rest
  | c :: rest => c :: replaceCt rest
  | [] => []

/-- String form of the ct.604 typo fix. -/
def fixCt (s : String) : String := String.mk (replaceCt s.data)

/-- create_category_data. -/
def create_category_data (st : ConvState) (title : String)
    (categoryId : Option Nat) (direction : String) : CategoryData :=
  { pk := st.pk_counter_data, title := title, category_id := categoryId,
    direction := direction, created_at := st.timestamp }

/-- create_category_data_url. -/
def create_category_data_url (st : ConvState) (categoryDataId : Nat)
    (filename : String) (fileType : String) : DataUrl :=
  { pk := st.pk_counter_data_urls,
    path := pathRootFor fileType ++ fixCt filename,
    type := "video", category_data_id := categoryDataId }

/-- Create one CategoriesData record plus its CategoriesDataUrls record and
advance both counters, as the front and side branches of process_row do. -/
def addDataAndUrl (fileType leafTitle : String) (lastPk : Option Nat)
    (direction file : String) (st : ConvState) : ConvState × CategoryData :=
  let d := create_category_data st leafTitle lastPk direction
  let u := create_category_data_url st d.pk file fileType
  ({ st with pk_counter_data := st.pk_counter_data + 1,
             pk_counter_data_urls := st.pk_counter_data_urls + 1,
             categories_data := st.categories_data ++ [d],
             categories_data_urls := st.categories_data_urls ++ [u] }, d)

/-- The data-record section of process_row: a front record (front cell or
the movie file name alias), a side record, and, when neither produced a
record, a single blank-direction record with no URL record. Returns the
updated state and the data_records list. -/
def dataStage (fileType leafTitle : String) (lastPk : Option Nat)
    (row : Row) (st : ConvState) : ConvState × List CategoryData :=
  let s1 :=
    match frontFileOf row with
    | some f =>
      let p := addDataAndUrl fileType leafTitle lastPk "front" f st
      (p.1, [p.2])
    | none => (st, [])
  let s2 :=
    match sideFileOf row with
    | some f =>
      let p := addDataAndUrl fileType leafTitle lastPk "side" f s1.1
      (p.1, s1.2 ++ [p.2])
    | none => s1
  if s2.2.isEmpty then
    let d := create_category_data s2.1 leafTitle lastPk ""
    ({ s2.1 with pk_counter_data := s2.1.pk_counter_data + 1,
                 categories_data := s2.1.categories_data ++ [d] }, [d])
  else s2

/-- lookup_type as set by process_row for the sequence and unit menus. -/
def lookupTypeOf (fileType : String) : Option String :=
  if fileType = "sequence_menu" then some "explanation_sequence"
  else if fileType = "unit_menu" then some "explanation_unit"
  else none

/-- explanation_slug_map.get(t, empty dict).get(key). -/
def slugLookup (st : ConvState) (t key : String) : Option String :=
  afind key ((afind t st.explanation_slug_map).getD [])

/-- leaf_slug resolution of process_row: the sequence and unit menus look in
the matching explanation entry, the explanation tables look in their own
entry, and every other file type resolves nothing. -/
def leafSlugOf (st : ConvState) (fileType : String) (row : Row) : Option String :=
  let leafKey := rowPrefixKey row (leafIndexOf row)
  match lookupTypeOf fileType with
  | some lt => slugLookup st lt leafKey
  | none =>
    if fileType = "explanation_sequence" ∨ fileType = "explanation_unit" then
      slugLookup st fileType leafKey
    else none

/-- parent_slug for the overview movement: at depth zero it stays leaf_slug;
deeper, it is looked up at the parent key when lookup_type is set, else it
also stays leaf_slug. -/
def parentSlugOf (st : ConvState) (fileType : String) (row : Row) : Option String :=
  let leafIndex := leafIndexOf row
  if 0 < leafIndex then
    match lookupTypeOf fileType with
    | some lt => slugLookup st lt (joinBar ((rowPath row).take leafIndex))
    | none => leafSlugOf st fileType row
  else leafSlugOf st fileType row

/-- parent_name for the overview movement. -/
def parentNameOf (row : Row) : String :=
  let leafIndex := leafIndexOf row
  if 0 < leafIndex then cellTrim row (leafIndex - 1) ++ " Overview"
  else cellTrim row leafIndex

/-- create_category_movement appends the -un-exp suffix when missing. -/
def withExpSuffix (s : String) : String :=
  if strEndsWith s "-un-exp" then s else s ++ "-un-exp"

/-- create_category_movement: the -un-exp suffix is ensured on a provided
slug, and time markers are carried only when passed. -/
def create_category_movement (pk : Nat) (nm : String) (dataId : Nat)
    (relatedSlug : Option String) (startT endT : Option Int)
    (isRelatedOnly : Bool) : Movement :=
  { pk := pk, name := nm, category_data_movements_id := dataId,
    type := "EXPLANATION", is_related_only := isRelatedOnly,
    related_explanation_slug := relatedSlug.map withExpSuffix,
    start_time := startT, end_time := endT }

/-- The movement section of process_row: per data record, an overview plus a
timed movement when both timing cells exist, else one untimed movement with
is_related_only false. -/
def emitMovements (hasTiming : Bool) (leafTitle parentName : String)
    (leafSlug parentSlug : Option String) (startT endT : Option Int) :
    List CategoryData → Nat → List Movement → Nat × List Movement
  | [], pk, movs => (pk, movs)
  | d :: rest, pk, movs =>
    if hasTiming then
      emitMovements hasTiming leafTitle parentName leafSlug parentSlug startT endT
        rest (pk + 2) (movs ++
          [create_category_movement pk parentName d.pk parentSlug none none true,
           create_category_movement (pk + 1) leafTitle d.pk leafSlug startT endT false])
    else
      emitMovements hasTiming leafTitle parentName leafSlug parentSlug startT endT
        rest (pk + 1) (movs ++
          [create_category_movement pk leafTitle d.pk leafSlug none none false])

/-- process_row of convert_multi_level_categories.py: build or reuse the
hierarchy nodes for the populated levels, create the data records for the
populated media cells (or the blank fallback), then the movement records. -/
def process_row (st : ConvState) (fileType : String) (row : Row) : ConvState :=
  match rowNonNull row with
  | [] => st
  | _ :: _ =>
    let leafIndex := leafIndexOf row
    let t := (List.range row.levels.length).foldl
      (levelStep fileType row leafIndex) (st, none)
    let leafTitle := cellTrim row leafIndex
    let s2 := dataStage fileType leafTitle t.2 row t.1
    let hasTiming := row.start_time.isSome && row.end_time.isSome
    let leafSlug := leafSlugOf s2.1 fileType row
    let parentSlug := parentSlugOf s2.1 fileType row
    let parentName := parentNameOf row
    let em := emitMovements hasTiming leafTitle parentName leafSlug parentSlug
      row.start_time row.end_time s2.2 s2.1.pk_counter_movements
      s2.1.categories_movements
    { s2.1 with pk_counter_movements := em.1, categories_movements := em.2 }

/-- The composite key of one explanation row in load_explanation_slugs: the
level cells joined by the separator, substituting "" for a NaN cell, one
component per level column. -/
def expKey (cells : List (Option String)) : String :=
  joinBar (cells.map (fun c =>
    match c with
    | some v => pyStrip v
    | none => ""))

/-- The slug stored by load_explanation_slugs: the normalized value of the
last (deepest) level column plus the fixed -un-exp suffix. -/
def explanationSlug (v : String) : String := slugify v ++ "-un-exp"

/-- One row of load_explanation_slugs: an entry is written exactly when the
last level cell is notna. The source presupposes at least one level column
(an empty column list is unreachable there). -/
def slugDictStep (dict : List (String × String)) (cells : List (Option String)) :
    List (String × String) :=
  match cells.getLast? with
  | some (some v) => (expKey cells, explanationSlug v) :: dict
  | _ => dict

/-- load_explanation_slugs restricted to one explanation table: the mapping
from composite key to slug built row by row, later rows overwriting. -/
def load_explanation_slugs (rows : List (List (Option String))) :
    List (String × String) :=
  rows.foldl slugDictStep []

/-- The converter state right after reset_pk_counters and the clearing done
by generate_categories_json (the run timestamp is irrelevant to every claim
and is fixed to ""). -/
def initState : ConvState :=
  { pk_counter_categories := 4000, pk_counter_data := 7000,
    pk_counter_data_urls := 7000, pk_counter_movements := 3000,
    timestamp := "", pk_map := [], sort_counters := [],
    explanation_slug_map := [], categories := [], categories_data := [],
    categories_data_urls := [], categories_movements := [] }

/-- The row loop of generate_categories_json over one table. -/
def runRows (fileType : String) (rows : List Row) (st : ConvState) : ConvState :=
  rows.foldl (fun s r => process_row s fileType r) st

end ConvMulti

namespace CsvJson

/-- remove_known_suffixes: repeatedly strip a trailing -un, -exp or -dev,
which is the effect of the anchored regex over the suffix alternation (at
each step at most one of the three matches at the end, so greedy stripping
from the right removes exactly the maximal suffix the regex matches). -/
def removeSuffixAux : Nat → String → String
  | 0, s => s
  | fuel + 1, s =>
    if strEndsWith s "-un" then removeSuffixAux fuel (strDropRight s 3)
    else if strEndsWith s "-exp" then removeSuffixAux fuel (strDropRight s 4)
    else if strEndsWith s "-dev" then removeSuffixAux fuel (strDropRight s 4)
    else s

/-- remove_known_suffixes from csv_to_json.py (same in csv_to_json_v3.py). -/
def remove_known_suffixes (s : String) : String := removeSuffixAux s.length s

/-- The base slug of one parent in the ensure_unique_slug loop: its full
slug from pk_to_slug (default "") with the known suffixes removed. A parent
pk of none models Python passing current pointers that are None, whose
pk_to_slug lookup defaults to "". -/
def parentBase (pkToSlug : List (Nat × String)) (opk : Option Nat) : String :=
  remove_known_suffixes
    (match opk with
     | some pk => (afind pk pkToSlug).getD ""
     | none => "")

/-- The loop of ensure_unique_slug: walk the parent chain, skip parents with
an empty base slug, prepend each base to the growing chain and return the
first joined candidate that is not yet used; exhausting the chain raises. -/
def ensureAux (rawSlug : String) (pkToSlug : List (Nat × String))
    (usedSlugs : List String) :
    List (Option Nat) → List String → Except String String
  | [], _ => .error "Slug collision"
  | opk :: rest, chain =>
    if parentBase pkToSlug opk = "" then
      ensureAux rawSlug pkToSlug usedSlugs rest chain
    else
      if String.intercalate "-" ((parentBase pkToSlug opk :: chain) ++
          [rawSlug]) ∈ usedSlugs then
        ensureAux rawSlug pkToSlug usedSlugs rest
          (parentBase pkToSlug opk :: chain)
      else
        .ok (String.intercalate "-" ((parentBase pkToSlug opk :: chain) ++
          [rawSlug]))

/-- ensure_unique_slug from csv_to_json.py (same in csv_to_json_v3.py): an
unused raw slug is returned as is; otherwise ancestor base slugs are
prepended one level at a time and a unique composite is returned, or a
ValueError is raised when the chain is exhausted. -/
def ensure_unique_slug (rawSlug : String) (parentPks : List (Option Nat))
    (pkToSlug : List (Nat × String)) (usedSlugs : List String) :
    Except String String :=
  if rawSlug ∈ usedSlugs then ensureAux rawSlug pkToSlug usedSlugs parentPks []
  else .ok rawSlug

/-- A kalari.Categories record of generate_categories (the constant
timestamp, is_active and model tag carried by every record are omitted as
literals shared by all records of a run). -/
structure Category where
  pk : Nat
  name : String
  slug : String
  type : String
  parent : Option Nat
  has_data : Nat
  sort : Nat
  category_type : Option String
deriving DecidableEq, Repr

/-- A kalari.CategoriesData record of create_data_and_urls. -/
structure CategoryData where
  pk : Nat
  title : String
  category_id : Option Nat
  direction : String
deriving DecidableEq, Repr

/-- A kalari.CategoriesDataUrls record of create_data_and_urls. -/
structure DataUrl where
  pk : Nat
  path : String
  type : String
  category_data_id : Nat
deriving DecidableEq, Repr

/-- One csv.DictReader row of generate_categories: row.get of each named
column with default "". -/
structure CsvRow where
  level1 : String
  level2 : String
  level3 : String
  level4 : String
  front : String
  side : String
  movie : String
deriving DecidableEq, Repr

/-- The local state of one generate_categories call: the fresh categories
list and parent_map, the threaded global used_slugs, pk_to_slug and pk
counters, the current level pointers, and the shared data and url lists. -/
structure GenState where
  next_pk : Nat
  categories : List Category
  parent_map : List (Nat × List Nat)
  used_slugs : List String
  pk_to_slug : List (Nat × String)
  current_parent_pk : Option Nat
  current_child_pk : Option Nat
  current_grandchild_pk : Option Nat
  sort_order_level1 : Nat
  current_data_pk : Nat
  all_categories_data : List CategoryData
  all_categories_data_urls : List DataUrl
deriving DecidableEq, Repr

/-- The children registered in parent_map for a pk, defaulting to the empty
list (every registered pk is given the empty list at creation). -/
def childrenOf (pm : List (Nat × List Nat)) (p : Nat) : List Nat :=
  (afind p pm).getD []

/-- The parent_map bookkeeping of one level block: a fresh empty children
list for the new pk and, when a parent exists, the new pk appended to the
children list of that parent. -/
def pmInsert (pmm : List (Nat × List Nat)) (newPk : Nat)
    (parent : Option Nat) : List (Nat × List Nat) :=
  match parent with
  | none => (newPk, ([] : List Nat)) :: pmm
  | some p =>
    (newPk, ([] : List Nat)) :: (p, childrenOf pmm p ++ [newPk]) :: pmm

/-- Shared body of the four level blocks of generate_categories: normalize
and suffix the name, ensure a globally unique slug, append the category
record, register the slug, and register the new pk in parent_map. The
current pointers are updated by the caller, as each block does after this
shared body. -/
def addCat (catType suffix : String) (st : GenState) (nm : String)
    (parentPks : List (Option Nat)) (parent : Option Nat) (srt : Nat)
    (root : Bool) : Except String GenState :=
  match ensure_unique_slug (slugify nm ++ suffix) parentPks st.pk_to_slug
      st.used_slugs with
  | .error e => .error e
  | .ok uniq =>
    .ok { st with
          next_pk := st.next_pk + 1,
          categories := st.categories ++
            [{ pk := st.next_pk, name := nm, slug := uniq, type := catType,
               parent := parent, has_data := 1, sort := srt,
               category_type := if root then some "ODISSI" else none }],
          parent_map := pmInsert st.parent_map st.next_pk parent,
          used_slugs := uniq :: st.used_slugs,
          pk_to_slug := (st.next_pk, uniq) :: st.pk_to_slug }

/-- The LEVEL 1 block: a non-empty level1 cell creates a root node and
resets the deeper pointers. -/
def step1 (catType suffix : String) (row : CsvRow) (st : GenState) :
    Except String GenState :=
  let level1 := pyStrip row.level1
  if level1 = "" then .ok st
  else
    match addCat catType suffix st level1 [] none st.sort_order_level1 true with
    | .error e => .error e
    | .ok st2 =>
      .ok { st2 with current_parent_pk := some st.next_pk,
                     current_child_pk := none,
                     current_grandchild_pk := none,
                     sort_order_level1 := st.sort_order_level1 + 1 }

/-- The LEVEL 2 block: requires a current level-1 parent. -/
def step2 (catType suffix : String) (row : CsvRow) (st : GenState) :
    Except String GenState :=
  let level2 := pyStrip row.level2
  match st.current_parent_pk with
  | none => .ok st
  | some p =>
    if level2 = "" then .ok st
    else
      let srt := (childrenOf st.parent_map p).length + 1
      match addCat catType suffix st level2 [some p] (some p) srt false with
      | .error e => .error e
      | .ok st2 =>
        .ok { st2 with current_child_pk := some st.next_pk,
                       current_grandchild_pk := none }

/-- The LEVEL 3 block: requires a current level-2 parent; the uniqueness
chain is the child then the parent. -/
def step3 (catType suffix : String) (row : CsvRow) (st : GenState) :
    Except String GenState :=
  let level3 := pyStrip row.level3
  match st.current_child_pk with
  | none => .ok st
  | some c =>
    if level3 = "" then .ok st
    else
      let srt := (childrenOf st.parent_map c).length + 1
      match addCat catType suffix st level3 [some c, st.current_parent_pk]
          (some c) srt false with
      | .error e => .error e
      | .ok st2 =>
        .ok { st2 with current_grandchild_pk := some st.next_pk }

/-- The fallback final pk of a row when the LEVEL 4 block creates nothing:
the deepest current pointer, which may be none when no level was ever seen. -/
def fallbackPk (st : GenState) : Option Nat :=
  match st.current_grandchild_pk with
  | some g => some g
  | none =>
    match st.current_child_pk with
    | some c => some c
    | none => st.current_parent_pk

/-- The LEVEL 4 block: requires a current level-3 parent; it returns the
final category pk for this row (the created node, or the fallback); the
current pointers are not modified by this block. -/
def step4 (catType suffix : String) (row : CsvRow) (st : GenState) :
    Except String (GenState × Option Nat) :=
  let level4 := pyStrip row.level4
  match st.current_grandchild_pk with
  | none => .ok (st, fallbackPk st)
  | some g =>
    if level4 = "" then .ok (st, fallbackPk st)
    else
      let srt := (childrenOf st.parent_map g).length + 1
      match addCat catType suffix st level4
          [some g, st.current_child_pk, st.current_parent_pk] (some g) srt
          false with
      | .error e => .error e
      | .ok st2 => .ok (st2, some st.next_pk)

/-- create_data_and_urls from csv_to_json.py (textually the same body as in
csv_to_json_v2.py): one CategoriesData record and one CategoriesDataUrls
record sharing the same pk, the url record back-referencing that pk. -/
def create_data_and_urls (titleStr directionVal videoPath : String)
    (parentCatPk : Option Nat) (st : GenState) : GenState :=
  { st with
    current_data_pk := st.current_data_pk + 1,
    all_categories_data := st.all_categories_data ++
      [{ pk := st.current_data_pk, title := titleStr,
         category_id := parentCatPk, direction := directionVal }],
    all_categories_data_urls := st.all_categories_data_urls ++
      [{ pk := st.current_data_pk, path := videoPath, type := "video",
         category_data_id := st.current_data_pk }] }

/-- The row_title fallback chain of generate_categories. -/
def rowTitle (row : CsvRow) : String :=
  if pyStrip row.level4 ≠ "" then pyStrip row.level4
  else if pyStrip row.level3 ≠ "" then pyStrip row.level3
  else if pyStrip row.level2 ≠ "" then pyStrip row.level2
  else pyStrip row.level1

/-- Prefix the filename with the video prefix when one is given. -/
def videoPath (videoDir fileVal : String) : String :=
  if videoDir = "" then fileVal else videoDir ++ "/" ++ fileVal

/-- The data section of one row: a front, side and movie record for each
non-empty cell, all attached to the final category pk of the row. -/
def dataSection (videoDir : String) (row : CsvRow) (finalPk : Option Nat)
    (st : GenState) : GenState :=
  let t := rowTitle row
  let s1 := if pyStrip row.front ≠ "" then
      create_data_and_urls t "front" (videoPath videoDir (pyStrip row.front)) finalPk st
    else st
  let s2 := if pyStrip row.side ≠ "" then
      create_data_and_urls t "side" (videoPath videoDir (pyStrip row.side)) finalPk s1
    else s1
  if pyStrip row.movie ≠ "" then
    create_data_and_urls t "" (videoPath videoDir (pyStrip row.movie)) finalPk s2
  else s2

/-- One full row of generate_categories: the four level blocks, the final
category pk, then the data records. -/
def processCsvRow (catType suffix videoDir : String) (st : GenState)
    (row : CsvRow) : Except String GenState :=
  match step1 catType suffix row st with
  | .error e => .error e
  | .ok s1 =>
    match step2 catType suffix row s1 with
    | .error e => .error e
    | .ok s2 =>
      match step3 catType suffix row s2 with
      | .error e => .error e
      | .ok s3 =>
        match step4 catType suffix row s3 with
        | .error e => .error e
        | .ok s4 => .ok (dataSection videoDir row s4.2 s4.1)

/-- A fold over rows that propagates the ValueError of the slug helper. -/
def foldRows (f : GenState → CsvRow → Except String GenState) :
    GenState → List CsvRow → Except String GenState
  | st, [] => .ok st
  | st, row :: rest =>
    match f st row with
    | .error e => .error e
    | .ok st2 => foldRows f st2 rest

/-- The final pass of generate_categories: a category with registered
children flips to has_data 0. -/
def finalizeCat (pmm : List (Nat × List Nat)) (c : Category) : Category :=
  if (childrenOf pmm c.pk).length > 0 then { c with has_data := 0 } else c

/-- The final pass over the per-call categories list. -/
def finalizeHasData (pmm : List (Nat × List Nat)) (cats : List Category) :
    List Category :=
  cats.map (finalizeCat pmm)

/-- generate_categories from csv_to_json.py: a fresh categories list,
parent_map, current pointers and level-1 sort counter, the threaded global
slug state and pk counters, the row loop, then the final has_data pass. -/
def generate_categories (catType suffix videoDir : String) (startPk : Nat)
    (used : List String) (pkSlug : List (Nat × String)) (dataPk : Nat)
    (dataRecs : List CategoryData) (urlRecs : List DataUrl)
    (rows : List CsvRow) : Except String GenState :=
  let init : GenState :=
    { next_pk := startPk, categories := [], parent_map := [],
      used_slugs := used, pk_to_slug := pkSlug, current_parent_pk := none,
      current_child_pk := none, current_grandchild_pk := none,
      sort_order_level1 := 1, current_data_pk := dataPk,
      all_categories_data := dataRecs, all_categories_data_urls := urlRecs }
  match foldRows (processCsvRow catType suffix videoDir) init rows with
  | .error e => .error e
  | .ok st =>
    .ok { st with categories := finalizeHasData st.parent_map st.categories }

/-- One table of the driver: its rows, category type, slug suffix and video
prefix, as in the files_and_types list of the main block. -/
structure TableSpec where
  rows : List CsvRow
  catType : String
  suffix : String
  videoDir : String
deriving DecidableEq, Repr

/-- The accumulated driver state threaded through the generate_categories
calls of the main block. -/
structure RunAcc where
  all_categories : List Category
  current_pk : Nat
  used_slugs : List String
  pk_to_slug : List (Nat × String)
  current_data_pk : Nat
  all_categories_data : List CategoryData
  all_categories_data_urls : List DataUrl
deriving DecidableEq, Repr

/-- One driver iteration: run generate_categories on a table and extend the
accumulated categories with the returned fresh list. -/
def runTable (acc : RunAcc) (tbl : TableSpec) : Except String RunAcc :=
  match generate_categories tbl.catType tbl.suffix tbl.videoDir acc.current_pk
      acc.used_slugs acc.pk_to_slug acc.current_data_pk
      acc.all_categories_data acc.all_categories_data_urls tbl.rows with
  | .error e => .error e
  | .ok st =>
    .ok { all_categories := acc.all_categories ++ st.categories,
          current_pk := st.next_pk,
          used_slugs := st.used_slugs,
          pk_to_slug := st.pk_to_slug,
          current_data_pk := st.current_data_pk,
          all_categories_data := st.all_categories_data,
          all_categories_data_urls := st.all_categories_data_urls }

/-- The table fold of the driver. -/
def runTables : RunAcc → List TableSpec → Except String RunAcc
  | acc, [] => .ok acc
  | acc, tbl :: rest =>
    match runTable acc tbl with
    | .error e => .error e
    | .ok acc2 => runTables acc2 rest

/-- The whole driver of csv_to_json.py: pk seeds 4000 and 7000, empty global
slug state, then the sequential per-table calls. -/
def runAll (tables : List TableSpec) : Except String RunAcc :=
  runTables { all_categories := [], current_pk := 4000, used_slugs := [],
              pk_to_slug := [], current_data_pk := 7000,
              all_categories_data := [], all_categories_data_urls := [] }
    tables

end CsvJson

/- ===== Basic association-list lemmas ===== -/

theorem afind_nil {α β : Type} [DecidableEq α] (k : α) :
    afind k ([] : List (α × β)) = none := rfl

theorem afind_cons {α β : Type} [DecidableEq α] (k a : α) (b : β)
    (l : List (α × β)) :
    afind k ((a, b) :: l) = if a = k then some b else afind k l := rfl

theorem afind_eq_none_iff {α β : Type} [DecidableEq α] (k : α)
    (l : List (α × β)) :
    afind k l = none ↔ ∀ p ∈ l, p.1 ≠ k := by
  induction l with
  | nil => simp [afind]
  | cons p rest ih =>
    obtain ⟨a, b⟩ := p
    by_cases hak : a = k
    · subst hak
      simp [afind, ih]
    · simp only [afind, if_neg hak, ih, List.mem_cons]
      constructor
      · intro h q hq
        rcases hq with hq | hq
        · subst hq; exact hak
        · exact h q hq
      · intro h q hq
        exact h q (Or.inr hq)

theorem afind_isSome_of_some {α β : Type} [DecidableEq α] {k : α}
    {l : List (α × β)} {v : β} (h : afind k l = some v) :
    (afind k l).isSome := by
  rw [h]; rfl

/- ===== C1: the Explanation Index Builder ===== -/

namespace ConvMulti

/-- A row funds an index entry exactly when its last level cell is notna. -/
def addsEntry (cells : List (Option String)) : Prop :=
  ∃ v, cells.getLast? = some (some v)

/-- Characterization of one slugDictStep in terms of getLast?. -/
theorem slugDictStep_eq (dict : List (String × String))
    (cells : List (Option String)) :
    (∀ v, cells.getLast? = some (some v) →
      slugDictStep dict cells = (expKey cells, explanationSlug v) :: dict) ∧
    ((∀ v, cells.getLast? ≠ some (some v)) → slugDictStep dict cells = dict) := by
  constructor
  · intro v hv
    unfold slugDictStep
    rw [hv]
  · intro hv
    unfold slugDictStep
    cases hl : cells.getLast? with
    | none => rfl
    | some o =>
      cases o with
      | none => rfl
      | some v => exact absurd hl (hv v)

/-- Soundness of the fold: every binding of the built dictionary comes from
a processed row with a notna deepest cell, has that row as its key and the
normalized deepest value as its slug. -/
theorem slugDict_sound (rows : List (List (Option String))) :
    ∀ (dict : List (String × String)) (k s : String),
    afind k (rows.foldl slugDictStep dict) = some s →
    afind k dict = some s ∨
      ∃ cells ∈ rows, ∃ v, cells.getLast? = some (some v) ∧
        expKey cells = k ∧ s = explanationSlug v := by
  induction rows with
  | nil => intro dict k s h; exact Or.inl h
  | cons r rest ih =>
    intro dict k s h
    simp only [List.foldl_cons] at h
    rcases ih (slugDictStep dict r) k s h with h1 | h2
    · cases hl : r.getLast? with
      | none =>
        rw [((slugDictStep_eq dict r).2 (by simp [hl])) ] at h1
        exact Or.inl h1
      | some o =>
        cases o with
        | none =>
          rw [((slugDictStep_eq dict r).2 (by simp [hl]))] at h1
          exact Or.inl h1
        | some v =>
          rw [(slugDictStep_eq dict r).1 v hl] at h1
          rw [afind_cons] at h1
          by_cases hk : expKey r = k
          · rw [if_pos hk] at h1
            refine Or.inr ⟨r, List.mem_cons_self r rest, v, hl, hk, ?_⟩
            exact (Option.some_injective _ h1).symm
          · rw [if_neg hk] at h1
            exact Or.inl h1
    · obtain ⟨cells, hmem, rest2⟩ := h2
      exact Or.inr ⟨cells, List.mem_cons_of_mem r hmem, rest2⟩

/-- A slugDictStep never deletes a key. -/
theorem slugDictStep_isSome (dict : List (String × String))
    (cells : List (Option String)) (k : String)
    (h : (afind k dict).isSome) :
    (afind k (slugDictStep dict cells)).isSome := by
  unfold slugDictStep
  cases hl : cells.getLast? with
  | none => exact h
  | some o =>
    cases o with
    | none => exact h
    | some v =>
      rw [afind_cons]
      by_cases hk : expKey cells = k
      · rw [if_pos hk]; rfl
      · rw [if_neg hk]; exact h

/-- The whole fold never deletes a key. -/
theorem slugDict_fold_isSome (rows : List (List (Option String))) :
    ∀ (dict : List (String × String)) (k : String),
    (afind k dict).isSome →
    (afind k (rows.foldl slugDictStep dict)).isSome := by
  induction rows with
  | nil => intro dict k h; exact h
  | cons r rest ih =>
    intro dict k h
    simp only [List.foldl_cons]
    exact ih (slugDictStep dict r) k (slugDictStep_isSome dict r k h)

/-- Completeness of the fold: every row with a notna deepest cell leaves its
key present in the final dictionary. -/
theorem slugDict_complete (rows : List (List (Option String))) :
    ∀ (dict : List (String × String)) (cells : List (Option String)),
    cells ∈ rows → addsEntry cells →
    (afind (expKey cells) (rows.foldl slugDictStep dict)).isSome := by
  induction rows with
  | nil => intro dict cells h; exact absurd h (List.not_mem_nil cells)
  | cons r rest ih =>
    intro dict cells hmem hadds
    simp only [List.foldl_cons]
    rcases List.mem_cons.mp hmem with heq | hmem2
    · subst heq
      obtain ⟨v, hv⟩ := hadds
      have hstep : (afind (expKey cells) (slugDictStep dict cells)).isSome := by
        rw [(slugDictStep_eq dict cells).1 v hv, afind_cons, if_pos rfl]
        rfl
      exact slugDict_fold_isSome rest (slugDictStep dict cells) (expKey cells) hstep
    · exact ih (slugDictStep dict r) cells hmem2 hadds

/-- Absence in the fold: when no processed row with this key has a notna
deepest cell, the key stays absent. -/
theorem slugDict_absent (rows : List (List (Option String))) :
    ∀ (dict : List (String × String)) (k : String),
    afind k dict = none →
    (∀ cells ∈ rows, expKey cells = k → ∀ v, cells.getLast? ≠ some (some v)) →
    afind k (rows.foldl slugDictStep dict) = none := by
  induction rows with
  | nil => intro dict k h _; exact h
  | cons r rest ih =>
    intro dict k h hnone
    simp only [List.foldl_cons]
    refine ih (slugDictStep dict r) k ?_ ?_
    · unfold slugDictStep
      cases hl : r.getLast? with
      | none => exact h
      | some o =>
        cases o with
        | none => exact h
        | some v =>
          rw [afind_cons]
          by_cases hk : expKey r = k
          · exact absurd hl (hnone r (List.mem_cons_self r rest) hk v)
          · rw [if_neg hk]; exact h
    · intro cells hmem hk v
      exact hnone cells (List.mem_cons_of_mem r hmem) hk v

end ConvMulti

/-- C1: for every row of an explanation table, load_explanation_slugs
computes the composite key by joining the level cells with the separator,
substituting "" at each absent or blank position (one component per level
column); an index entry originates from such a row exactly when the deepest
level cell is notna, and the slug stored is the normalized value of the
last (deepest) level column of the table with the fixed explanation suffix
(explanationSlug), not a separate slug column. Stated as soundness,
completeness and absence of the built index. -/
theorem C1_explanation_index_builder (rows : List (List (Option String))) :
    (∀ k s, afind k (ConvMulti.load_explanation_slugs rows) = some s →
      ∃ cells ∈ rows, ∃ v, cells.getLast? = some (some v) ∧
        ConvMulti.expKey cells = k ∧ s = ConvMulti.explanationSlug v) ∧
    (∀ cells ∈ rows, ConvMulti.addsEntry cells →
      (afind (ConvMulti.expKey cells)
        (ConvMulti.load_explanation_slugs rows)).isSome) ∧
    (∀ k, (∀ cells ∈ rows, ConvMulti.expKey cells = k →
        cells.getLast?.getD none = none) →
      afind k (ConvMulti.load_explanation_slugs rows) = none) := by
  refine ⟨?_, ?_, ?_⟩
  · intro k s h
    rcases ConvMulti.slugDict_sound rows [] k s h with h1 | h2
    · simp [afind] at h1
    · exact h2
  · intro cells hmem hadds
    exact ConvMulti.slugDict_complete rows [] cells hmem hadds
  · intro k hk
    refine ConvMulti.slugDict_absent rows [] k rfl ?_
    intro cells hmem hkey v hv
    have := hk cells hmem hkey
    rw [hv] at this
    exact Option.noConfusion this

/-- C1 witness: on a concrete two-row table, the row with a notna deepest
cell is indexed and the row with a NaN deepest cell is not. -/
theorem C1_witness :
    (afind (ConvMulti.expKey [some "Mangalacharan", some "Bhoomipranam"])
      (ConvMulti.load_explanation_slugs
        [[some "Mangalacharan", some "Bhoomipranam"], [some "X", none]])).isSome ∧
    afind (ConvMulti.expKey [some "X", none])
      (ConvMulti.load_explanation_slugs
        [[some "Mangalacharan", some "Bhoomipranam"], [some "X", none]]) =
      none := by
  constructor
  · exact (C1_explanation_index_builder
      [[some "Mangalacharan", some "Bhoomipranam"], [some "X", none]]).2.1
      [some "Mangalacharan", some "Bhoomipranam"] (by decide)
      ⟨"Bhoomipranam", by decide⟩
  · exact (C1_explanation_index_builder
      [[some "Mangalacharan", some "Bhoomipranam"], [some "X", none]]).2.2
      (ConvMulti.expKey [some "X", none]) (by decide)

/- ===== ConvMulti structural lemmas ===== -/

namespace ConvMulti

/-- Fields of the state a levelStep never touches. -/
theorem levelStep_fixed (fileType : String) (row : Row) (leafIndex : Nat)
    (t : ConvState × Option Nat) (i : Nat) :
    (levelStep fileType row leafIndex t i).1.pk_counter_data =
        t.1.pk_counter_data ∧
    (levelStep fileType row leafIndex t i).1.pk_counter_data_urls =
        t.1.pk_counter_data_urls ∧
    (levelStep fileType row leafIndex t i).1.pk_counter_movements =
        t.1.pk_counter_movements ∧
    (levelStep fileType row leafIndex t i).1.timestamp = t.1.timestamp ∧
    (levelStep fileType row leafIndex t i).1.explanation_slug_map =
        t.1.explanation_slug_map ∧
    (levelStep fileType row leafIndex t i).1.categories_data =
        t.1.categories_data ∧
    (levelStep fileType row leafIndex t i).1.categories_data_urls =
        t.1.categories_data_urls ∧
    (levelStep fileType row leafIndex t i).1.categories_movements =
        t.1.categories_movements := by
  unfold levelStep
  cases cellAt row i with
  | none => exact ⟨rfl, rfl, rfl, rfl, rfl, rfl, rfl, rfl⟩
  | some v =>
    simp only
    cases afind (rowPrefixKey row i) t.1.pk_map with
    | some pk => exact ⟨rfl, rfl, rfl, rfl, rfl, rfl, rfl, rfl⟩
    | none => exact ⟨rfl, rfl, rfl, rfl, rfl, rfl, rfl, rfl⟩

/-- The level fold never touches those fields either. -/
theorem levelFold_fixed (fileType : String) (row : Row) (leafIndex : Nat)
    (l : List Nat) :
    ∀ (t : ConvState × Option Nat),
    (l.foldl (levelStep fileType row leafIndex) t).1.pk_counter_data =
        t.1.pk_counter_data ∧
    (l.foldl (levelStep fileType row leafIndex) t).1.pk_counter_data_urls =
        t.1.pk_counter_data_urls ∧
    (l.foldl (levelStep fileType row leafIndex) t).1.pk_counter_movements =
        t.1.pk_counter_movements ∧
    (l.foldl (levelStep fileType row leafIndex) t).1.timestamp =
        t.1.timestamp ∧
    (l.foldl (levelStep fileType row leafIndex) t).1.explanation_slug_map =
        t.1.explanation_slug_map ∧
    (l.foldl (levelStep fileType row leafIndex) t).1.categories_data =
        t.1.categories_data ∧
    (l.foldl (levelStep fileType row leafIndex) t).1.categories_data_urls =
        t.1.categories_data_urls ∧
    (l.foldl (levelStep fileType row leafIndex) t).1.categories_movements =
        t.1.categories_movements := by
  induction l with
  | nil => intro t; exact ⟨rfl, rfl, rfl, rfl, rfl, rfl, rfl, rfl⟩
  | cons j rest ih =>
    intro t
    simp only [List.foldl_cons]
    have h1 := levelStep_fixed fileType row leafIndex t j
    have h2 := ih (levelStep fileType row leafIndex t j)
    exact ⟨h2.1.trans h1.1, h2.2.1.trans h1.2.1, h2.2.2.1.trans h1.2.2.1,
      h2.2.2.2.1.trans h1.2.2.2.1, h2.2.2.2.2.1.trans h1.2.2.2.2.1,
      h2.2.2.2.2.2.1.trans h1.2.2.2.2.2.1,
      h2.2.2.2.2.2.2.1.trans h1.2.2.2.2.2.2.1,
      h2.2.2.2.2.2.2.2.trans h1.2.2.2.2.2.2.2⟩

/-- A levelStep preserves every existing pk_map binding. -/
theorem levelStep_pk_map_mono (fileType : String) (row : Row) (leafIndex : Nat)
    (t : ConvState × Option Nat) (i : Nat) (k : String) (v : Nat)
    (h : afind k t.1.pk_map = some v) :
    afind k (levelStep fileType row leafIndex t i).1.pk_map = some v := by
  unfold levelStep
  cases cellAt row i with
  | none => exact h
  | some w =>
    simp only
    cases hf : afind (rowPrefixKey row i) t.1.pk_map with
    | some pk => exact h
    | none =>
      rw [afind_cons]
      by_cases hk : rowPrefixKey row i = k
      · rw [hk] at hf; rw [hf] at h; exact Option.noConfusion h
      · rw [if_neg hk]; exact h

/-- The level fold preserves every existing pk_map binding. -/
theorem levelFold_pk_map_mono (fileType : String) (row : Row) (leafIndex : Nat)
    (l : List Nat) :
    ∀ (t : ConvState × Option Nat) (k : String) (v : Nat),
    afind k t.1.pk_map = some v →
    afind k (l.foldl (levelStep fileType row leafIndex) t).1.pk_map = some v := by
  induction l with
  | nil => intro t k v h; exact h
  | cons j rest ih =>
    intro t k v h
    simp only [List.foldl_cons]
    exact ih _ k v (levelStep_pk_map_mono fileType row leafIndex t j k v h)

/-- After a levelStep at a populated index, the key of that index is bound. -/
theorem levelStep_pk_map_self (fileType : String) (row : Row) (leafIndex : Nat)
    (t : ConvState × Option Nat) (i : Nat) (hpop : (cellAt row i).isSome) :
    (afind (rowPrefixKey row i)
      (levelStep fileType row leafIndex t i).1.pk_map).isSome := by
  unfold levelStep
  cases hc : cellAt row i with
  | none => rw [hc] at hpop; exact absurd hpop (by simp)
  | some w =>
    simp only
    cases hf : afind (rowPrefixKey row i) t.1.pk_map with
    | some pk => simp [hf]
    | none => simp [afind_cons]

/-- After the level fold over any index list containing a populated index,
the key of that index is bound in pk_map. -/
theorem levelFold_pk_map_self (fileType : String) (row : Row) (leafIndex : Nat)
    (l : List Nat) :
    ∀ (t : ConvState × Option Nat) (i : Nat), i ∈ l → (cellAt row i).isSome →
    (afind (rowPrefixKey row i)
      (l.foldl (levelStep fileType row leafIndex) t).1.pk_map).isSome := by
  induction l with
  | nil => intro t i h; exact absurd h (List.not_mem_nil i)
  | cons j rest ih =>
    intro t i hmem hpop
    simp only [List.foldl_cons]
    rcases List.mem_cons.mp hmem with heq | hmem2
    · subst heq
      have hself := levelStep_pk_map_self fileType row leafIndex t i hpop
      obtain ⟨v, hv⟩ := Option.isSome_iff_exists.mp hself
      have := levelFold_pk_map_mono fileType row leafIndex rest _
        (rowPrefixKey row i) v hv
      rw [this]; rfl
    · exact ih _ i hmem2 hpop

/-- The key-to-node correspondence invariant: pk_map keys are distinct and
the created categories stand in one-to-one correspondence with the pk_map
entries (pk_map conses at the front, categories append at the back). -/
def PkFun (st : ConvState) : Prop :=
  (st.pk_map.map Prod.fst).Nodup ∧
  st.categories.map Category.pk = (st.pk_map.map Prod.snd).reverse

/-- A levelStep preserves the key-to-node correspondence. -/
theorem levelStep_PkFun (fileType : String) (row : Row) (leafIndex : Nat)
    (t : ConvState × Option Nat) (i : Nat) (h : PkFun t.1) :
    PkFun (levelStep fileType row leafIndex t i).1 := by
  unfold levelStep
  cases cellAt row i with
  | none => exact h
  | some w =>
    simp only
    cases hf : afind (rowPrefixKey row i) t.1.pk_map with
    | some pk => exact h
    | none =>
      constructor
      · simp only [List.map_cons, List.nodup_cons]
        refine ⟨?_, h.1⟩
        intro hmem
        rw [afind_eq_none_iff] at hf
        simp only [List.mem_map] at hmem
        obtain ⟨p, hp, hpk⟩ := hmem
        exact hf p hp hpk
      · simp only [List.map_append, List.map_cons, List.reverse_cons, h.2]
        rfl

/-- The level fold preserves the key-to-node correspondence. -/
theorem levelFold_PkFun (fileType : String) (row : Row) (leafIndex : Nat)
    (l : List Nat) :
    ∀ (t : ConvState × Option Nat), PkFun t.1 →
    PkFun (l.foldl (levelStep fileType row leafIndex) t).1 := by
  induction l with
  | nil => intro t h; exact h
  | cons j rest ih =>
    intro t h
    simp only [List.foldl_cons]
    exact ih _ (levelStep_PkFun fileType row leafIndex t j h)

end ConvMulti

namespace ConvMulti

/-- Fields of the state the data section never touches. -/
theorem dataStage_fixed (fileType leafTitle : String) (lastPk : Option Nat)
    (row : Row) (st : ConvState) :
    (dataStage fileType leafTitle lastPk row st).1.pk_map = st.pk_map ∧
    (dataStage fileType leafTitle lastPk row st).1.categories =
        st.categories ∧
    (dataStage fileType leafTitle lastPk row st).1.sort_counters =
        st.sort_counters ∧
    (dataStage fileType leafTitle lastPk row st).1.pk_counter_categories =
        st.pk_counter_categories ∧
    (dataStage fileType leafTitle lastPk row st).1.explanation_slug_map =
        st.explanation_slug_map ∧
    (dataStage fileType leafTitle lastPk row st).1.pk_counter_movements =
        st.pk_counter_movements ∧
    (dataStage fileType leafTitle lastPk row st).1.categories_movements =
        st.categories_movements ∧
    (dataStage fileType leafTitle lastPk row st).1.timestamp =
        st.timestamp := by
  unfold dataStage addDataAndUrl
  cases frontFileOf row <;> cases sideFileOf row <;>
    simp [create_category_data, create_category_data_url]

/-- The data section appends exactly its returned records, at least one is
always produced, the front and side counts match the populated cells, the
blank fallback appears exactly when neither cell is populated, and every
record is attached to the leaf pk. -/
theorem dataStage_spec (fileType leafTitle : String) (lastPk : Option Nat)
    (row : Row) (st : ConvState) :
    (dataStage fileType leafTitle lastPk row st).1.categories_data =
      st.categories_data ++ (dataStage fileType leafTitle lastPk row st).2 ∧
    (dataStage fileType leafTitle lastPk row st).2 ≠ [] ∧
    ((dataStage fileType leafTitle lastPk row st).2.filter
        (fun d => d.direction = "front")).length =
      (if (frontFileOf row).isSome then 1 else 0) ∧
    ((dataStage fileType leafTitle lastPk row st).2.filter
        (fun d => d.direction = "side")).length =
      (if (sideFileOf row).isSome then 1 else 0) ∧
    (frontFileOf row = none → sideFileOf row = none →
      ∃ d, (dataStage fileType leafTitle lastPk row st).2 = [d] ∧
        d.direction = "") ∧
    (∀ d ∈ (dataStage fileType leafTitle lastPk row st).2,
      d.category_id = lastPk) := by
  unfold dataStage addDataAndUrl
  cases hf : frontFileOf row <;> cases hs : sideFileOf row <;>
    simp [create_category_data, create_category_data_url, List.filter]

end ConvMulti

namespace ConvMulti

/-- The movement loop appends exactly one block per data record, the block
is empty only for an empty data list, an is_related_only movement can arise
only under timing and then carries the parent slug, every untimed or timed
detail movement carries the leaf slug with is_related_only false, and a
non-empty data list always yields such a detail movement. -/
theorem emitMovements_spec (hasT : Bool) (lt pn : String)
    (ls ps : Option String) (s e : Option Int) :
    ∀ (ds : List CategoryData) (pk : Nat) (movs : List Movement),
    ∃ new, (emitMovements hasT lt pn ls ps s e ds pk movs).2 = movs ++ new ∧
      (new = [] ↔ ds = []) ∧
      (∀ m ∈ new,
        (m.is_related_only = true → hasT = true ∧
          m.related_explanation_slug = ps.map withExpSuffix) ∧
        (m.is_related_only = false →
          m.related_explanation_slug = ls.map withExpSuffix)) ∧
      (ds ≠ [] → ∃ m ∈ new, m.is_related_only = false ∧
        m.related_explanation_slug = ls.map withExpSuffix) := by
  intro ds
  induction ds with
  | nil =>
    intro pk movs
    exact ⟨[], by simp [emitMovements], by simp, by simp, by simp⟩
  | cons d rest ih =>
    intro pk movs
    cases hT : hasT with
    | true =>
      obtain ⟨new2, hconc, hemp, hall, hex⟩ := ih (pk + 2) (movs ++
        [create_category_movement pk pn d.pk ps none none true,
         create_category_movement (pk + 1) lt d.pk ls s e false])
      subst hT
      refine ⟨[create_category_movement pk pn d.pk ps none none true,
               create_category_movement (pk + 1) lt d.pk ls s e false] ++ new2,
        ?_, ?_, ?_, ?_⟩
      · rw [emitMovements, if_pos rfl, hconc, List.append_assoc]
      · simp
      · intro m hm
        simp only [List.mem_append, List.mem_cons, List.not_mem_nil,
          or_false] at hm
        rcases hm with (hm | hm) | hm
        · subst hm
          refine ⟨fun _ => ⟨rfl, rfl⟩, fun hfalse => ?_⟩
          exact absurd hfalse (by simp [create_category_movement])
        · subst hm
          refine ⟨fun htrue => ?_, fun _ => rfl⟩
          exact absurd htrue (by simp [create_category_movement])
        · exact hall m hm
      · intro _
        refine ⟨create_category_movement (pk + 1) lt d.pk ls s e false,
          ?_, rfl, rfl⟩
        simp
    | false =>
      obtain ⟨new2, hconc, hemp, hall, hex⟩ := ih (pk + 1) (movs ++
        [create_category_movement pk lt d.pk ls none none false])
      subst hT
      refine ⟨[create_category_movement pk lt d.pk ls none none false] ++ new2,
        ?_, ?_, ?_, ?_⟩
      · rw [emitMovements, if_neg (by simp), hconc, List.append_assoc]
      · simp
      · intro m hm
        simp only [List.mem_append, List.mem_cons, List.not_mem_nil,
          or_false] at hm
        rcases hm with hm | hm
        · subst hm
          refine ⟨fun htrue => ?_, fun _ => rfl⟩
          exact absurd htrue (by simp [create_category_movement])
        · exact hall m hm
      · intro _
        refine ⟨create_category_movement pk lt d.pk ls none none false,
          ?_, rfl, rfl⟩
        simp

end ConvMulti

namespace ConvMulti

/-- leaf_slug depends on the state only through explanation_slug_map. -/
theorem leafSlugOf_congr (st1 st2 : ConvState) (ft : String) (row : Row)
    (h : st1.explanation_slug_map = st2.explanation_slug_map) :
    leafSlugOf st1 ft row = leafSlugOf st2 ft row := by
  unfold leafSlugOf slugLookup
  rw [h]

/-- parent_slug depends on the state only through explanation_slug_map. -/
theorem parentSlugOf_congr (st1 st2 : ConvState) (ft : String) (row : Row)
    (h : st1.explanation_slug_map = st2.explanation_slug_map) :
    parentSlugOf st1 ft row = parentSlugOf st2 ft row := by
  unfold parentSlugOf slugLookup
  rw [h, leafSlugOf_congr st1 st2 ft row h]

/-- Decomposition of the movement output of process_row on a row with at
least one populated level: the new movements are characterized by the
resolved leaf and parent slugs and the timing cells. -/
theorem process_row_movements_spec (st : ConvState) (fileType : String)
    (row : Row) (hne : rowNonNull row ≠ []) :
    ∃ new, (process_row st fileType row).categories_movements =
        st.categories_movements ++ new ∧ new ≠ [] ∧
      (∃ m ∈ new, m.is_related_only = false ∧
        m.related_explanation_slug =
          (leafSlugOf st fileType row).map withExpSuffix) ∧
      (∀ m ∈ new,
        (m.is_related_only = true →
          (row.start_time.isSome ∧ row.end_time.isSome) ∧
          m.related_explanation_slug =
            (parentSlugOf st fileType row).map withExpSuffix) ∧
        (m.is_related_only = false →
          m.related_explanation_slug =
            (leafSlugOf st fileType row).map withExpSuffix)) := by
  cases hnn : rowNonNull row with
  | nil => exact absurd hnn hne
  | cons a l =>
    simp only [process_row, hnn]
    set leafIndex := leafIndexOf row with hleaf
    set t := (List.range row.levels.length).foldl
      (levelStep fileType row leafIndex) (st, none) with ht
    set s2 := dataStage fileType (cellTrim row leafIndex) t.2 row t.1 with hs2
    obtain ⟨_, _, _, _, hmapF, _, _, hmovF⟩ :=
      levelFold_fixed fileType row leafIndex (List.range row.levels.length)
        (st, none)
    obtain ⟨_, _, _, _, hmapD, _, hmovD, _⟩ :=
      dataStage_fixed fileType (cellTrim row leafIndex) t.2 row t.1
    have hmap : s2.1.explanation_slug_map = st.explanation_slug_map := by
      rw [← ht] at hmapF
      exact hmapD.trans hmapF
    have hmov : s2.1.categories_movements = st.categories_movements := by
      rw [← ht] at hmovF
      exact hmovD.trans hmovF
    obtain ⟨_, hne2, _, _, _, _⟩ :=
      dataStage_spec fileType (cellTrim row leafIndex) t.2 row t.1
    rw [← hs2] at hne2
    obtain ⟨new, hconc, hemp, hall, hex⟩ :=
      emitMovements_spec (row.start_time.isSome && row.end_time.isSome)
        (cellTrim row leafIndex) (parentNameOf row)
        (leafSlugOf s2.1 fileType row) (parentSlugOf s2.1 fileType row)
        row.start_time row.end_time s2.2 s2.1.pk_counter_movements
        s2.1.categories_movements
    rw [leafSlugOf_congr s2.1 st fileType row hmap] at hconc hall hex ⊢
    rw [parentSlugOf_congr s2.1 st fileType row hmap] at hall
    refine ⟨new, ?_, ?_, ?_, ?_⟩
    · simpa [hmov] using hconc
    · intro hnil
      exact hne2 (hemp.mp hnil)
    · exact hex hne2
    · intro m hm
      refine ⟨fun htrue => ?_, fun hfalse => ((hall m hm).2 hfalse)⟩
      obtain ⟨hT, hslug⟩ := (hall m hm).1 htrue
      exact ⟨Bool.and_eq_true_iff.mp hT, hslug⟩

end ConvMulti

namespace ConvMulti

/-- A left fold by max never goes below its initial accumulator. -/
theorem foldl_max_base (l : List Nat) : ∀ a : Nat, a ≤ l.foldl max a := by
  induction l with
  | nil => intro a; exact Nat.le_refl a
  | cons y rest ih =>
    intro a
    rw [List.foldl_cons]
    exact Nat.le_trans (Nat.le_max_left a y) (ih (max a y))

/-- Every member of a list is at most its left fold by max. -/
theorem foldl_max_le (l : List Nat) :
    ∀ (a x : Nat), x ∈ l → x ≤ l.foldl max a := by
  induction l with
  | nil => intro a x h; exact absurd h (List.not_mem_nil x)
  | cons y rest ih =>
    intro a x h
    rw [List.foldl_cons]
    rcases List.mem_cons.mp h with h | h
    · subst h
      exact Nat.le_trans (Nat.le_max_right a x) (foldl_max_base rest (max a x))
    · exact ih (max a y) x h

/-- A left fold by max returns its base or one of the members. -/
theorem foldl_max_choice (l : List Nat) :
    ∀ a : Nat, l.foldl max a = a ∨ l.foldl max a ∈ l := by
  induction l with
  | nil => intro a; exact Or.inl rfl
  | cons y rest ih =>
    intro a
    rw [List.foldl_cons]
    rcases ih (max a y) with h | h
    · rw [h]
      rcases max_choice a y with h2 | h2
      · exact Or.inl h2
      · rw [h2]; exact Or.inr (List.mem_cons_self y rest)
    · exact Or.inr (List.mem_cons_of_mem y h)

/-- Membership in the non_null index list means an in-range populated cell. -/
theorem mem_rowNonNull (row : Row) (i : Nat) :
    i ∈ rowNonNull row ↔ i < row.levels.length ∧ (cellAt row i).isSome := by
  simp [rowNonNull, List.mem_filter, List.mem_range]

/-- The leaf index of a row with a populated cell is itself populated. -/
theorem leafIndex_mem (row : Row) (hne : rowNonNull row ≠ []) :
    leafIndexOf row ∈ rowNonNull row := by
  rcases foldl_max_choice (rowNonNull row) 0 with h | h
  · cases hnn : rowNonNull row with
    | nil => exact absurd hnn hne
    | cons a l =>
      have ha := foldl_max_le (rowNonNull row) 0 a
        (by rw [hnn]; exact List.mem_cons_self a l)
      rw [h] at ha
      have ha0 : a = 0 := Nat.le_zero.mp ha
      subst ha0
      have hL : leafIndexOf row = 0 := h
      rw [hL]
      exact List.mem_cons_self 0 l
  · show (rowNonNull row).foldl max 0 ∈ rowNonNull row
    exact h

/-- Every cell beyond the leaf index is unpopulated, whether it is an
in-range NaN cell or lies past the level columns altogether. -/
theorem cellAt_none_of_gt_leaf (row : Row) (k : Nat)
    (h : leafIndexOf row < k) : cellAt row k = none := by
  cases hc : cellAt row k with
  | none => rfl
  | some v =>
    have hpop : (cellAt row k).isSome := by rw [hc]; rfl
    have hlt : k < row.levels.length := by
      by_contra hge
      rw [cellAt, List.getD_eq_default _ _ (Nat.le_of_not_lt hge)] at hpop
      exact absurd hpop (by simp)
    have hk : k ∈ rowNonNull row := (mem_rowNonNull row k).mpr ⟨hlt, hpop⟩
    have hle : k ≤ leafIndexOf row := foldl_max_le (rowNonNull row) 0 k hk
    exact absurd h (Nat.not_lt.mpr hle)

/-- The level loop skips an unpopulated index. -/
theorem levelStep_skip (fileType : String) (row : Row) (leafIndex : Nat)
    (t : ConvState × Option Nat) (k : Nat) (h : cellAt row k = none) :
    levelStep fileType row leafIndex t k = t := by
  unfold levelStep
  rw [h]

/-- Extending the fold range beyond the leaf index changes nothing: every
later index is skipped. -/
theorem foldRange_stable (fileType : String) (row : Row)
    (t0 : ConvState × Option Nat) :
    ∀ k : Nat, leafIndexOf row + 1 ≤ k →
    (List.range k).foldl (levelStep fileType row (leafIndexOf row)) t0 =
    (List.range (leafIndexOf row + 1)).foldl
      (levelStep fileType row (leafIndexOf row)) t0 := by
  intro k
  induction k with
  | zero => intro h; exact absurd h (Nat.not_succ_le_zero _)
  | succ k ih =>
    intro h
    by_cases hlt : leafIndexOf row < k
    · rw [List.range_succ, List.foldl_append, List.foldl_cons, List.foldl_nil]
      rw [levelStep_skip fileType row (leafIndexOf row) _ k
        (cellAt_none_of_gt_leaf row k hlt)]
      exact ih hlt
    · have hk : k = leafIndexOf row :=
        Nat.le_antisymm (Nat.not_lt.mp hlt) (Nat.le_of_succ_le_succ h)
      rw [hk]

/-- At a populated index, the last pk returned by the level step is exactly
the pk_map binding of that index's prefix key in the step's own output:
the reuse branch returns the looked-up binding and the create branch
returns the pk it just registered at the front. -/
theorem levelStep_lastPk (fileType : String) (row : Row) (leafIndex : Nat)
    (t : ConvState × Option Nat) (i : Nat) (hpop : (cellAt row i).isSome) :
    (levelStep fileType row leafIndex t i).2 =
    afind (rowPrefixKey row i) (levelStep fileType row leafIndex t i).1.pk_map := by
  cases hc : cellAt row i with
  | none => rw [hc] at hpop; exact absurd hpop (by simp)
  | some v =>
    unfold levelStep
    rw [hc]
    cases hg : afind (rowPrefixKey row i) t.1.sort_counters <;>
      cases hf : afind (rowPrefixKey row i) t.1.pk_map <;>
        simp [hg, hf, afind_cons, create_category]

/-- After the full level fold of a row with a populated cell, the final
last pk is the pk_map binding of the deepest populated prefix key. -/
theorem levelFold_lastPk (fileType : String) (row : Row) (st : ConvState)
    (hne : rowNonNull row ≠ []) :
    ((List.range row.levels.length).foldl
      (levelStep fileType row (leafIndexOf row)) (st, none)).2 =
    afind (rowPrefixKey row (leafIndexOf row))
      ((List.range row.levels.length).foldl
        (levelStep fileType row (leafIndexOf row)) (st, none)).1.pk_map := by
  obtain ⟨hlt, hpop⟩ :=
    (mem_rowNonNull row (leafIndexOf row)).mp (leafIndex_mem row hne)
  rw [foldRange_stable fileType row (st, none) row.levels.length hlt]
  rw [List.range_succ, List.foldl_append, List.foldl_cons, List.foldl_nil]
  exact levelStep_lastPk fileType row (leafIndexOf row) _ (leafIndexOf row) hpop

/-- Decomposition of the data output of process_row on a row with at least
one populated level: one front record exactly when the front cell (or its
movie file name alias) is populated, one side record exactly when the side
cell is populated, the single blank-direction fallback record exactly when
neither is, and every record attached to the pk_map binding of the deepest
populated prefix key. -/
theorem process_row_data_spec (st : ConvState) (fileType : String)
    (row : Row) (hne : rowNonNull row ≠ []) :
    ∃ new, (process_row st fileType row).categories_data =
        st.categories_data ++ new ∧ new ≠ [] ∧
      (new.filter (fun d => d.direction = "front")).length =
        (if (frontFileOf row).isSome then 1 else 0) ∧
      (new.filter (fun d => d.direction = "side")).length =
        (if (sideFileOf row).isSome then 1 else 0) ∧
      (frontFileOf row = none → sideFileOf row = none →
        ∃ d, new = [d] ∧ d.direction = "") ∧
      (∀ d ∈ new, d.category_id =
        afind (rowPrefixKey row (leafIndexOf row))
          (process_row st fileType row).pk_map) := by
  cases hnn : rowNonNull row with
  | nil => exact absurd hnn hne
  | cons a l =>
    simp only [process_row, hnn]
    set leafIndex := leafIndexOf row with hleaf
    set t := (List.range row.levels.length).foldl
      (levelStep fileType row leafIndex) (st, none) with ht
    set s2 := dataStage fileType (cellTrim row leafIndex) t.2 row t.1 with hs2
    obtain ⟨_, _, _, _, _, hdataF, _, _⟩ :=
      levelFold_fixed fileType row leafIndex (List.range row.levels.length)
        (st, none)
    obtain ⟨hdata, hne2, hfront, hside, hfall, hcatid⟩ :=
      dataStage_spec fileType (cellTrim row leafIndex) t.2 row t.1
    rw [← ht] at hdataF
    refine ⟨s2.2, ?_, hne2, hfront, hside, hfall, ?_⟩
    · show s2.1.categories_data = st.categories_data ++ s2.2
      rw [hdata, hdataF]
    · intro d hd
      have h2 := levelFold_lastPk fileType row st hne
      rw [← hleaf, ← ht] at h2
      obtain ⟨hpmD, _, _, _, _, _, _, _⟩ :=
        dataStage_fixed fileType (cellTrim row leafIndex) t.2 row t.1
      show d.category_id = afind (rowPrefixKey row leafIndex) s2.1.pk_map
      rw [hcatid d hd, hpmD]
      exact h2

/-- process_row leaves pk_map and categories as the level fold left them. -/
theorem process_row_nodes (st : ConvState) (fileType : String) (row : Row) :
    ∀ (a : Nat) (l : List Nat), rowNonNull row = a :: l →
    (process_row st fileType row).pk_map =
      ((List.range row.levels.length).foldl
        (levelStep fileType row (leafIndexOf row)) (st, none)).1.pk_map ∧
    (process_row st fileType row).categories =
      ((List.range row.levels.length).foldl
        (levelStep fileType row (leafIndexOf row)) (st, none)).1.categories ∧
    (process_row st fileType row).sort_counters =
      ((List.range row.levels.length).foldl
        (levelStep fileType row (leafIndexOf row)) (st, none)).1.sort_counters := by
  intro a l hnn
  simp only [process_row, hnn]
  set t := (List.range row.levels.length).foldl
    (levelStep fileType row (leafIndexOf row)) (st, none) with ht
  obtain ⟨hpm, hcat, hsc, _, _, _, _, _⟩ :=
    dataStage_fixed fileType (cellTrim row (leafIndexOf row)) t.2 row t.1
  exact ⟨hpm, hcat, hsc⟩

/-- process_row preserves every existing pk_map binding. -/
theorem process_row_pk_map_mono (st : ConvState) (fileType : String)
    (row : Row) (k : String) (v : Nat) (h : afind k st.pk_map = some v) :
    afind k (process_row st fileType row).pk_map = some v := by
  cases hnn : rowNonNull row with
  | nil => simp only [process_row, hnn]; exact h
  | cons a l =>
    rw [(process_row_nodes st fileType row a l hnn).1]
    exact levelFold_pk_map_mono fileType row (leafIndexOf row)
      (List.range row.levels.length) (st, none) k v h

/-- After process_row, the key of every populated depth of the row is bound
in pk_map. -/
theorem process_row_pk_map_some (st : ConvState) (fileType : String)
    (row : Row) (i : Nat) (hpop : (cellAt row i).isSome) :
    (afind (rowPrefixKey row i) (process_row st fileType row).pk_map).isSome := by
  have hlt : i < row.levels.length := by
    by_contra hge
    rw [cellAt, List.getD_eq_default _ _ (Nat.le_of_not_lt hge)] at hpop
    exact absurd hpop (by simp)
  have hmemnn : i ∈ rowNonNull row := by
    rw [rowNonNull, List.mem_filter]
    exact ⟨List.mem_range.mpr hlt, hpop⟩
  cases hnn : rowNonNull row with
  | nil => rw [hnn] at hmemnn; exact absurd hmemnn (List.not_mem_nil i)
  | cons a l =>
    rw [(process_row_nodes st fileType row a l hnn).1]
    exact levelFold_pk_map_self fileType row (leafIndexOf row)
      (List.range row.levels.length) (st, none) i
      (List.mem_range.mpr hlt) hpop

/-- process_row preserves the key-to-node correspondence. -/
theorem process_row_PkFun (st : ConvState) (fileType : String) (row : Row)
    (h : PkFun st) : PkFun (process_row st fileType row) := by
  cases hnn : rowNonNull row with
  | nil => simp only [process_row, hnn]; exact h
  | cons a l =>
    obtain ⟨hpm, hcat, _⟩ := process_row_nodes st fileType row a l hnn
    constructor
    · rw [hpm]
      exact (levelFold_PkFun fileType row (leafIndexOf row)
        (List.range row.levels.length) (st, none) h).1
    · rw [hpm, hcat]
      exact (levelFold_PkFun fileType row (leafIndexOf row)
        (List.range row.levels.length) (st, none) h).2

/-- runRows preserves every existing pk_map binding. -/
theorem runRows_pk_map_mono (fileType : String) (rows : List Row) :
    ∀ (st : ConvState) (k : String) (v : Nat), afind k st.pk_map = some v →
    afind k (runRows fileType rows st).pk_map = some v := by
  induction rows with
  | nil => intro st k v h; exact h
  | cons r rest ih =>
    intro st k v h
    exact ih _ k v (process_row_pk_map_mono st fileType r k v h)

/-- runRows preserves the key-to-node correspondence. -/
theorem runRows_PkFun (fileType : String) (rows : List Row) :
    ∀ (st : ConvState), PkFun st → PkFun (runRows fileType rows st) := by
  induction rows with
  | nil => intro st h; exact h
  | cons r rest ih =>
    intro st h
    exact ih _ (process_row_PkFun st fileType r h)

end ConvMulti

namespace ConvMulti

/-- The sort counter of a key not yet registered in pk_map is absent or 1:
a counter is initialized at 1 and bumped only at the moment its key enters
pk_map. -/
def SortInv (st : ConvState) : Prop :=
  ∀ k, afind k st.pk_map = none →
    afind k st.sort_counters = none ∨ afind k st.sort_counters = some 1

/-- A levelStep preserves SortInv and keeps every created sort at 1. -/
theorem levelStep_sorts (fileType : String) (row : Row) (leafIndex : Nat)
    (t : ConvState × Option Nat) (i : Nat)
    (hinv : SortInv t.1) (hall : ∀ c ∈ t.1.categories, c.sort = 1) :
    SortInv (levelStep fileType row leafIndex t i).1 ∧
    ∀ c ∈ (levelStep fileType row leafIndex t i).1.categories, c.sort = 1 := by
  unfold levelStep
  cases cellAt row i with
  | none => exact ⟨hinv, hall⟩
  | some w =>
    simp only
    cases hpk : afind (rowPrefixKey row i) t.1.pk_map with
    | some pk =>
      refine ⟨?_, hall⟩
      intro k hk
      simp only at hk
      cases hsc : afind (rowPrefixKey row i) t.1.sort_counters with
      | none =>
        simp only [hsc]
        by_cases hkk : rowPrefixKey row i = k
        · rw [← hkk] at hk; rw [hk] at hpk; exact Option.noConfusion hpk
        · rw [afind_cons, if_neg hkk]
          exact hinv k hk
      | some c =>
        simp only [hsc]
        exact hinv k hk
    | none =>
      constructor
      · intro k hk
        simp only [afind_cons] at hk
        by_cases hkk : rowPrefixKey row i = k
        · rw [if_pos hkk] at hk; exact Option.noConfusion hk
        · rw [if_neg hkk] at hk
          rw [afind_cons, if_neg hkk]
          cases hsc : afind (rowPrefixKey row i) t.1.sort_counters with
          | none =>
            simp only [hsc]
            rw [afind_cons, if_neg hkk]
            exact hinv k hk
          | some c =>
            simp only [hsc]
            exact hinv k hk
      · intro c hc
        simp only [List.mem_append, List.mem_singleton] at hc
        rcases hc with hc | hc
        · exact hall c hc
        · subst hc
          show (afind (rowPrefixKey row i) _).getD 1 = 1
          cases hsc : afind (rowPrefixKey row i) t.1.sort_counters with
          | none =>
            simp only [hsc, afind_cons, if_pos rfl]
            rfl
          | some cnt =>
            simp only [hsc]
            rcases hinv (rowPrefixKey row i) hpk with hnone | hone
            · rw [hnone] at hsc; exact Option.noConfusion hsc
            · rw [hone] at hsc
              rw [← Option.some_injective _ hsc]
              rfl

/-- The level fold preserves SortInv and keeps every sort at 1. -/
theorem levelFold_sorts (fileType : String) (row : Row) (leafIndex : Nat)
    (l : List Nat) :
    ∀ (t : ConvState × Option Nat), SortInv t.1 →
    (∀ c ∈ t.1.categories, c.sort = 1) →
    SortInv (l.foldl (levelStep fileType row leafIndex) t).1 ∧
    ∀ c ∈ (l.foldl (levelStep fileType row leafIndex) t).1.categories,
      c.sort = 1 := by
  induction l with
  | nil => intro t h1 h2; exact ⟨h1, h2⟩
  | cons j rest ih =>
    intro t h1 h2
    simp only [List.foldl_cons]
    obtain ⟨h3, h4⟩ := levelStep_sorts fileType row leafIndex t j h1 h2
    exact ih _ h3 h4

/-- process_row preserves SortInv and keeps every sort at 1. -/
theorem process_row_sorts (st : ConvState) (fileType : String) (row : Row)
    (h1 : SortInv st) (h2 : ∀ c ∈ st.categories, c.sort = 1) :
    SortInv (process_row st fileType row) ∧
    ∀ c ∈ (process_row st fileType row).categories, c.sort = 1 := by
  cases hnn : rowNonNull row with
  | nil => simp only [process_row, hnn]; exact ⟨h1, h2⟩
  | cons a l =>
    obtain ⟨hpm, hcat, hsc⟩ := process_row_nodes st fileType row a l hnn
    have hfold := levelFold_sorts fileType row (leafIndexOf row)
      (List.range row.levels.length) (st, none) h1 h2
    constructor
    · intro k hk
      rw [hpm] at hk
      rw [hsc]
      exact hfold.1 k hk
    · rw [hcat]
      exact hfold.2

/-- runRows keeps every sort at 1. -/
theorem runRows_sorts (fileType : String) (rows : List Row) :
    ∀ (st : ConvState), SortInv st → (∀ c ∈ st.categories, c.sort = 1) →
    SortInv (runRows fileType rows st) ∧
    ∀ c ∈ (runRows fileType rows st).categories, c.sort = 1 := by
  induction rows with
  | nil => intro st h1 h2; exact ⟨h1, h2⟩
  | cons r rest ih =>
    intro st h1 h2
    obtain ⟨h3, h4⟩ := process_row_sorts st fileType r h1 h2
    exact ih _ h3 h4

end ConvMulti

/- ===== Concrete fixtures for counterexamples and witnesses ===== -/

namespace ConvMulti

/-- runRows over an appended row list is sequential composition. -/
theorem runRows_append (fileType : String) (l1 l2 : List Row)
    (st : ConvState) :
    runRows fileType (l1 ++ l2) st = runRows fileType l2 (runRows fileType l1 st) := by
  unfold runRows
  rw [List.foldl_append]

/-- The initial converter state satisfies the key-to-node correspondence. -/
theorem initState_PkFun : PkFun initState := ⟨List.nodup_nil, rfl⟩

/-- Row with level1 A only and no media cells. -/
def rowA : Row :=
  { levels := [some "A", none], front := none, movieFileName := none,
    side := none, start_time := none, end_time := none }

/-- Row with levels A, B and no media cells. -/
def rowAB : Row :=
  { levels := [some "A", some "B"], front := none, movieFileName := none,
    side := none, start_time := none, end_time := none }

/-- Row with levels A, C and no media cells. -/
def rowAC : Row :=
  { levels := [some "A", some "C"], front := none, movieFileName := none,
    side := none, start_time := none, end_time := none }

/-- Row with levels C, B and no media cells. -/
def rowCB : Row :=
  { levels := [some "C", some "B"], front := none, movieFileName := none,
    side := none, start_time := none, end_time := none }

/-- Row with level1 B and a front file. -/
def rowBfront : Row :=
  { levels := [some "B", none], front := some "f.mp4", movieFileName := none,
    side := none, start_time := none, end_time := none }

/-- Row with level1 A and a front file, no timing cells. -/
def rowAfront : Row :=
  { levels := [some "A"], front := some "f.mp4", movieFileName := none,
    side := none, start_time := none, end_time := none }

/-- A converter state whose explanation index maps the key A of the
explanation_sequence table to a slug. -/
def stSeqA : ConvState :=
  { initState with
    explanation_slug_map := [("explanation_sequence", [("A", "a-un-exp")])] }

end ConvMulti

/- ===== C2 ===== -/

/-- C2 counterexample: a sequence-menu row that creates a CategoryMedia
record, whose composite key A is present in the explanation_sequence index
entry, but that carries no timing cells, yields only movements with
is_related_only false (the resolved slug is still attached); no Movement
with is_related_only true is emitted, contrary to the claim. -/
theorem C2_counterexample :
    ConvMulti.leafSlugOf ConvMulti.stSeqA "sequence_menu" ConvMulti.rowAfront =
      some "a-un-exp" ∧
    (ConvMulti.process_row ConvMulti.stSeqA "sequence_menu"
      ConvMulti.rowAfront).categories_data.length = 1 ∧
    ((ConvMulti.process_row ConvMulti.stSeqA "sequence_menu"
      ConvMulti.rowAfront).categories_movements.map
        (fun m => (m.is_related_only, m.related_explanation_slug))) =
      [(false, some "a-un-exp")] ∧
    ¬ (∃ m ∈ (ConvMulti.process_row ConvMulti.stSeqA "sequence_menu"
        ConvMulti.rowAfront).categories_movements,
      m.is_related_only = true) := by
  decide

/-- C2 amended: when the composite key of a row that creates CategoryMedia
records is found in the cross-reference target entry, process_row emits a
Movement carrying the resolved slug but marked is_related_only false; a
Movement with is_related_only true is emitted only when the row carries
both start and end time cells. -/
theorem C2_related_slug_movement (st : ConvMulti.ConvState)
    (fileType : String) (row : ConvMulti.Row) (sl : String)
    (hne : ConvMulti.rowNonNull row ≠ [])
    (hslug : ConvMulti.leafSlugOf st fileType row = some sl) :
    ∃ new, (ConvMulti.process_row st fileType row).categories_movements =
        st.categories_movements ++ new ∧
      (∃ m ∈ new, m.is_related_only = false ∧
        m.related_explanation_slug = some (ConvMulti.withExpSuffix sl)) ∧
      (∀ m ∈ new, m.is_related_only = true →
        row.start_time.isSome ∧ row.end_time.isSome) := by
  obtain ⟨new, hconc, _, hex, hall⟩ :=
    ConvMulti.process_row_movements_spec st fileType row hne
  refine ⟨new, hconc, ?_, fun m hm htrue => ((hall m hm).1 htrue).1⟩
  obtain ⟨m, hm, hfalse, hslug2⟩ := hex
  refine ⟨m, hm, hfalse, ?_⟩
  rw [hslug2, hslug]
  rfl

/-- C2 witness: the amended statement applied at the concrete indexed row. -/
theorem C2_witness :
    ∃ new, (ConvMulti.process_row ConvMulti.stSeqA "sequence_menu"
        ConvMulti.rowAfront).categories_movements =
      ConvMulti.stSeqA.categories_movements ++ new ∧
      (∃ m ∈ new, m.is_related_only = false ∧
        m.related_explanation_slug =
          some (ConvMulti.withExpSuffix "a-un-exp")) ∧
      (∀ m ∈ new, m.is_related_only = true →
        ConvMulti.rowAfront.start_time.isSome ∧
        ConvMulti.rowAfront.end_time.isSome) :=
  C2_related_slug_movement ConvMulti.stSeqA "sequence_menu"
    ConvMulti.rowAfront "a-un-exp" (by decide) (by decide)

/- ===== C3 ===== -/

namespace ConvMulti

/-- With an empty explanation index the leaf slug resolves to none. -/
theorem leafSlugOf_empty (st : ConvState) (fileType : String) (row : Row)
    (hmap : st.explanation_slug_map = []) :
    leafSlugOf st fileType row = none := by
  unfold leafSlugOf slugLookup
  rw [hmap]
  cases lookupTypeOf fileType with
  | some lt => simp [afind]
  | none => split <;> simp [afind]

/-- With an empty explanation index the parent slug resolves to none. -/
theorem parentSlugOf_empty (st : ConvState) (fileType : String) (row : Row)
    (hmap : st.explanation_slug_map = []) :
    parentSlugOf st fileType row = none := by
  unfold parentSlugOf slugLookup
  rw [hmap, leafSlugOf_empty st fileType row hmap]
  cases hl : lookupTypeOf fileType with
  | some lt => simp [hl, afind]
  | none => simp [hl]

end ConvMulti

/-- C3: when the explanation index has no entries, for example because the
explanation files were missing or unreadable, process_row still emits at
least one baseline Movement for the CategoryMedia records of the row, every
emitted Movement carries no related slug, and process_row is a total
function, so the missed lookup never raises. -/
theorem C3_missing_lookup_graceful (st : ConvMulti.ConvState)
    (fileType : String) (row : ConvMulti.Row)
    (hne : ConvMulti.rowNonNull row ≠ [])
    (hmap : st.explanation_slug_map = []) :
    ∃ new, (ConvMulti.process_row st fileType row).categories_movements =
        st.categories_movements ++ new ∧ new ≠ [] ∧
      ∀ m ∈ new, m.related_explanation_slug = none := by
  obtain ⟨new, hconc, hne2, _, hall⟩ :=
    ConvMulti.process_row_movements_spec st fileType row hne
  refine ⟨new, hconc, hne2, ?_⟩
  intro m hm
  cases hb : m.is_related_only with
  | false =>
    have := (hall m hm).2 hb
    rw [this, ConvMulti.leafSlugOf_empty st fileType row hmap]
    rfl
  | true =>
    have := ((hall m hm).1 hb).2
    rw [this, ConvMulti.parentSlugOf_empty st fileType row hmap]
    rfl

/-- C3 witness: the theorem applied at the initial state, whose explanation
index is empty, and a concrete media row. -/
theorem C3_witness :
    ∃ new, (ConvMulti.process_row ConvMulti.initState "sequence_menu"
        ConvMulti.rowAfront).categories_movements =
      ConvMulti.initState.categories_movements ++ new ∧ new ≠ [] ∧
      ∀ m ∈ new, m.related_explanation_slug = none :=
  C3_missing_lookup_graceful ConvMulti.initState "sequence_menu"
    ConvMulti.rowAfront (by decide) rfl

/- ===== C4 ===== -/

/-- C4 counterexample: in convert_multi_level_categories.py has_data is set
eagerly at creation time and never finalized, so a node created as a leaf
in one row (A, has_data 1) keeps has_data 1 even after a later row gives it
a child (B with parent 4000); the claimed final invariant fails. -/
theorem C4_counterexample :
    ((ConvMulti.runRows "sequence_menu" [ConvMulti.rowA, ConvMulti.rowAB]
        ConvMulti.initState).categories.map
      (fun c => (c.pk, c.parent, c.has_data))) =
      [(4000, none, 1), (4001, some 4000, 1)] ∧
    ¬ (∀ c ∈ (ConvMulti.runRows "sequence_menu"
          [ConvMulti.rowA, ConvMulti.rowAB] ConvMulti.initState).categories,
        (∃ c2 ∈ (ConvMulti.runRows "sequence_menu"
            [ConvMulti.rowA, ConvMulti.rowAB] ConvMulti.initState).categories,
          c2.parent = some c.pk) → c.has_data = 0) := by
  decide

/- ===== C5 ===== -/

namespace CsvJson

/-- Row with level1 A, level2 B and a front file. -/
def rowAB : CsvRow :=
  { level1 := "A", level2 := "B", level3 := "", level4 := "",
    front := "f.mp4", side := "", movie := "" }

/-- Row with only level2 B populated and a front file. -/
def rowB2 : CsvRow :=
  { level1 := "", level2 := "B", level3 := "", level4 := "",
    front := "g.mp4", side := "", movie := "" }

/-- Row with only level3 C populated and no media. -/
def rowC3 : CsvRow :=
  { level1 := "", level2 := "", level3 := "C", level4 := "",
    front := "", side := "", movie := "" }

end CsvJson

/-- C5 counterexample: csv_to_json.py has no lookup-before-create. A row
that repeats the effective path prefix A then B (level2 B under the carried
parent A) creates a second CategoryNode 4002 for the same prefix as 4001,
same parent and same name; and two fully identical rows abort the run on
the slug collision instead of reusing the node ids. -/
theorem C5_counterexample :
    ((CsvJson.generate_categories "SEQUENCE" "" "odissi/sequence" 4000 []
        [] 7000 [] [] [CsvJson.rowAB, CsvJson.rowB2]).toOption.map
      (fun st2 => st2.categories.map (fun c => (c.pk, c.name, c.parent)))) =
      some [(4000, "A", none), (4001, "B", some 4000),
            (4002, "B", some 4000)] ∧
    (CsvJson.generate_categories "SEQUENCE" "" "odissi/sequence" 4000 []
      [] 7000 [] [] [CsvJson.rowAB, CsvJson.rowAB]).toOption = none := by
  decide

/-- C5 amended: in convert_multi_level_categories.py the joined path-prefix
key to node id mapping is a partial function. If two rows of one run agree
on the prefix key of a populated depth i, the id registered when the first
row is processed persists and is the id found for the second row, and the
key-to-node correspondence PkFun shows no second node is ever created for a
registered key. -/
theorem C5_prefix_partial_function (fileType : String)
    (pre mid : List ConvMulti.Row) (r1 r2 : ConvMulti.Row) (i : Nat)
    (h1 : (ConvMulti.cellAt r1 i).isSome)
    (h2 : (ConvMulti.cellAt r2 i).isSome)
    (hk : ConvMulti.rowPrefixKey r1 i = ConvMulti.rowPrefixKey r2 i) :
    ∃ v, afind (ConvMulti.rowPrefixKey r1 i)
          (ConvMulti.runRows fileType (pre ++ [r1])
            ConvMulti.initState).pk_map = some v ∧
        afind (ConvMulti.rowPrefixKey r2 i)
          (ConvMulti.runRows fileType (pre ++ r1 :: mid ++ [r2])
            ConvMulti.initState).pk_map = some v ∧
        ConvMulti.PkFun (ConvMulti.runRows fileType (pre ++ r1 :: mid ++ [r2])
          ConvMulti.initState) := by
  have hsplit : pre ++ r1 :: mid ++ [r2] = (pre ++ [r1]) ++ (mid ++ [r2]) := by
    simp
  have hpres := ConvMulti.process_row_pk_map_some
    (ConvMulti.runRows fileType pre ConvMulti.initState) fileType r1 i h1
  have hs1 : ConvMulti.runRows fileType (pre ++ [r1]) ConvMulti.initState =
      ConvMulti.process_row
        (ConvMulti.runRows fileType pre ConvMulti.initState) fileType r1 := by
    rw [ConvMulti.runRows_append]
    rfl
  rw [← hs1] at hpres
  obtain ⟨v, hv⟩ := Option.isSome_iff_exists.mp hpres
  refine ⟨v, hv, ?_, ?_⟩
  · rw [← hk, hsplit, ConvMulti.runRows_append]
    exact ConvMulti.runRows_pk_map_mono fileType (mid ++ [r2]) _ _ v hv
  · exact ConvMulti.runRows_PkFun fileType _ _ ConvMulti.initState_PkFun

/-- C5 witness: the same row processed twice reuses the binding of its
depth-1 prefix key. -/
theorem C5_witness :
    ∃ v, afind (ConvMulti.rowPrefixKey ConvMulti.rowAB 1)
          (ConvMulti.runRows "sequence_menu" ([] ++ [ConvMulti.rowAB])
            ConvMulti.initState).pk_map = some v ∧
        afind (ConvMulti.rowPrefixKey ConvMulti.rowAB 1)
          (ConvMulti.runRows "sequence_menu"
            ([] ++ ConvMulti.rowAB :: [] ++ [ConvMulti.rowAB])
            ConvMulti.initState).pk_map = some v ∧
        ConvMulti.PkFun (ConvMulti.runRows "sequence_menu"
          ([] ++ ConvMulti.rowAB :: [] ++ [ConvMulti.rowAB])
          ConvMulti.initState) :=
  C5_prefix_partial_function "sequence_menu" [] [] ConvMulti.rowAB
    ConvMulti.rowAB 1 (by decide) (by decide) rfl

/- ===== C6 ===== -/

/-- C6: the sort counter of process_row is keyed by the full key of the
node itself, not by its parent, although the adjacent source comment says
the counter exists so children appear in ascending order; the two siblings
B and C under A both receive sort 1, contradicting both that comment and
the claimed contiguous sequence 1..2. -/
theorem C6_sort_bug_eval :
    ((ConvMulti.runRows "sequence_menu" [ConvMulti.rowAB, ConvMulti.rowAC]
        ConvMulti.initState).categories.map
      (fun c => (c.pk, c.parent, c.sort))) =
      [(4000, none, 1), (4001, some 4000, 1), (4002, some 4000, 1)] ∧
    ¬ (((ConvMulti.runRows "sequence_menu"
          [ConvMulti.rowAB, ConvMulti.rowAC]
          ConvMulti.initState).categories.filter
        (fun c => c.parent = some 4000)).map
          ConvMulti.Category.sort).Nodup := by
  decide

/-- The general form of the C6 bug: in convert_multi_level_categories.py
every created CategoryNode has sort 1 on every input, because the counter
keyed by the node own full key is created at 1 and bumped only after the
single creation for that key. -/
theorem sort_always_one (fileType : String) (rows : List ConvMulti.Row) :
    ∀ c ∈ (ConvMulti.runRows fileType rows ConvMulti.initState).categories,
      c.sort = 1 :=
  (ConvMulti.runRows_sorts fileType rows ConvMulti.initState
    (fun _ _ => Or.inl rfl) (fun c hc => absurd hc (List.not_mem_nil c))).2

/-- The node created for B under A by the concrete two-level row. -/
def catB : ConvMulti.Category :=
  { pk := 4001, name := "B", slug := "b", type := "SEQUENCE",
    parent := some 4000, has_data := 1, is_active := 1, created_at := "",
    updated_at := "", sort := 1, category_type := none }

/-- The general form of the C6 bug evaluated on the created node B. -/
theorem sort_always_one_example : catB.sort = 1 :=
  sort_always_one "sequence_menu" [ConvMulti.rowAB] catB (by decide)

/- ===== C7 counterexample ===== -/

/-- C7 counterexample: create_category of convert_multi_level_categories.py
derives the slug from the name alone with no used-slugs check, so the two
distinct nodes named B under different parents receive the same slug b. -/
theorem C7_counterexample :
    ((ConvMulti.runRows "sequence_menu" [ConvMulti.rowAB, ConvMulti.rowCB]
        ConvMulti.initState).categories.map ConvMulti.Category.slug) =
      ["a", "b", "c", "b"] ∧
    ¬ ((ConvMulti.runRows "sequence_menu"
        [ConvMulti.rowAB, ConvMulti.rowCB]
        ConvMulti.initState).categories.map ConvMulti.Category.slug).Nodup := by
  decide

/- ===== C9 ===== -/

/-- C9 counterexample, falsifying both halves of the claim separately:
first, a row with no populated media-filename cell still creates one
CategoryMedia record, with blank direction, contrary to the half saying a
record exists only when the row supplied a populated media cell for that
orientation; second, in the run of row [A, B] followed by row [A, NaN],
the second row attaches its CategoryMedia (pk 7001) to the interior node A
(pk 4000) whose final has_data is 0, contrary to the half saying every
record's category_id refers to a node with final has_data 1. -/
theorem C9_counterexample :
    (ConvMulti.rowA.front = none ∧ ConvMulti.rowA.movieFileName = none ∧
      ConvMulti.rowA.side = none ∧
      ((ConvMulti.runRows "sequence_menu" [ConvMulti.rowA]
          ConvMulti.initState).categories_data.map
        (fun d => (d.pk, d.category_id, d.direction))) =
        [(7000, some 4000, "")]) ∧
    (((ConvMulti.runRows "sequence_menu" [ConvMulti.rowAB, ConvMulti.rowA]
          ConvMulti.initState).categories.map
        (fun c => (c.pk, c.has_data))) = [(4000, 0), (4001, 1)] ∧
      ((ConvMulti.runRows "sequence_menu" [ConvMulti.rowAB, ConvMulti.rowA]
          ConvMulti.initState).categories_data.map
        (fun d => (d.pk, d.category_id))) =
        [(7000, some 4001), (7001, some 4000)] ∧
      ¬ (∀ d ∈ (ConvMulti.runRows "sequence_menu"
            [ConvMulti.rowAB, ConvMulti.rowA]
            ConvMulti.initState).categories_data,
          ∀ c ∈ (ConvMulti.runRows "sequence_menu"
            [ConvMulti.rowAB, ConvMulti.rowA]
            ConvMulti.initState).categories,
          d.category_id = some c.pk → c.has_data = 1)) := by
  decide

/-- C9 amended: process_row creates one front CategoryMedia exactly when
the front cell (or the movie file name alias) strips to a non-empty value,
one side record exactly when the side cell does, when neither does it
still creates exactly one CategoryMedia with blank direction, a row always
yields at least one record, and every created record's category_id is the
pk_map binding of the row's deepest populated prefix key, the node at the
row's deepest populated level. -/
theorem C9_media_record_conditions (st : ConvMulti.ConvState)
    (fileType : String) (row : ConvMulti.Row)
    (hne : ConvMulti.rowNonNull row ≠ []) :
    ∃ new, (ConvMulti.process_row st fileType row).categories_data =
        st.categories_data ++ new ∧ new ≠ [] ∧
      (new.filter (fun d => d.direction = "front")).length =
        (if (ConvMulti.frontFileOf row).isSome then 1 else 0) ∧
      (new.filter (fun d => d.direction = "side")).length =
        (if (ConvMulti.sideFileOf row).isSome then 1 else 0) ∧
      (ConvMulti.frontFileOf row = none → ConvMulti.sideFileOf row = none →
        ∃ d, new = [d] ∧ d.direction = "") ∧
      (∀ d ∈ new, d.category_id =
        afind (ConvMulti.rowPrefixKey row (ConvMulti.leafIndexOf row))
          (ConvMulti.process_row st fileType row).pk_map) :=
  ConvMulti.process_row_data_spec st fileType row hne

/-- C9 witness: the amended statement at a concrete front-only row. -/
theorem C9_witness :
    ∃ new, (ConvMulti.process_row ConvMulti.initState "sequence_menu"
        ConvMulti.rowAfront).categories_data =
      ConvMulti.initState.categories_data ++ new ∧ new ≠ [] ∧
      (new.filter (fun d => d.direction = "front")).length =
        (if (ConvMulti.frontFileOf ConvMulti.rowAfront).isSome then 1 else 0) ∧
      (new.filter (fun d => d.direction = "side")).length =
        (if (ConvMulti.sideFileOf ConvMulti.rowAfront).isSome then 1 else 0) ∧
      (ConvMulti.frontFileOf ConvMulti.rowAfront = none →
        ConvMulti.sideFileOf ConvMulti.rowAfront = none →
        ∃ d, new = [d] ∧ d.direction = "") ∧
      (∀ d ∈ new, d.category_id =
        afind (ConvMulti.rowPrefixKey ConvMulti.rowAfront
            (ConvMulti.leafIndexOf ConvMulti.rowAfront))
          (ConvMulti.process_row ConvMulti.initState "sequence_menu"
            ConvMulti.rowAfront).pk_map) :=
  C9_media_record_conditions ConvMulti.initState "sequence_menu"
    ConvMulti.rowAfront (by decide)

/- ===== C10 counterexample ===== -/

/-- C10 counterexample: in convert_multi_level_categories.py the data and
url counters advance independently; the blank-direction fallback record of
a first row advances only the data counter, after which the url record of
the next row has pk 7000 but back-references CategoryMedia 7001. -/
theorem C10_counterexample :
    ((ConvMulti.runRows "sequence_menu" [ConvMulti.rowA, ConvMulti.rowBfront]
        ConvMulti.initState).categories_data_urls.map
      (fun u => (u.pk, u.category_data_id))) = [(7000, 7001)] ∧
    ¬ (∀ u ∈ (ConvMulti.runRows "sequence_menu"
          [ConvMulti.rowA, ConvMulti.rowBfront]
          ConvMulti.initState).categories_data_urls,
        u.pk = u.category_data_id) := by
  decide

/- ===== CsvJson: slug helper lemmas and C8 ===== -/

namespace CsvJson

/-- The candidate slugs the ensure_unique_slug loop tries, in order: one
composite per ancestor with a non-empty base, each prepending the base to
the growing chain. -/
def slugCandidates (rawSlug : String) (pkToSlug : List (Nat × String)) :
    List (Option Nat) → List String → List String
  | [], _ => []
  | opk :: rest, chain =>
    if parentBase pkToSlug opk = "" then
      slugCandidates rawSlug pkToSlug rest chain
    else
      String.intercalate "-" ((parentBase pkToSlug opk :: chain) ++
        [rawSlug]) ::
      slugCandidates rawSlug pkToSlug rest (parentBase pkToSlug opk :: chain)

/-- A successful ensureAux result is never an already-used slug. -/
theorem ensureAux_ok_not_used (rawSlug : String)
    (pkToSlug : List (Nat × String)) (usedSlugs : List String) :
    ∀ (pks : List (Option Nat)) (chain : List String) (s : String),
    ensureAux rawSlug pkToSlug usedSlugs pks chain = .ok s →
    s ∉ usedSlugs := by
  intro pks
  induction pks with
  | nil =>
    intro chain s h
    exact absurd h (by simp [ensureAux])
  | cons opk rest ih =>
    intro chain s h
    rw [ensureAux] at h
    by_cases hb : parentBase pkToSlug opk = ""
    · rw [if_pos hb] at h
      exact ih chain s h
    · rw [if_neg hb] at h
      by_cases hc : String.intercalate "-"
          ((parentBase pkToSlug opk :: chain) ++ [rawSlug]) ∈ usedSlugs
      · rw [if_pos hc] at h
        exact ih _ s h
      · rw [if_neg hc] at h
        cases h
        exact hc

/-- When every candidate is already used, ensureAux exhausts the chain and
raises. -/
theorem ensureAux_exhausted (rawSlug : String)
    (pkToSlug : List (Nat × String)) (usedSlugs : List String) :
    ∀ (pks : List (Option Nat)) (chain : List String),
    (∀ c ∈ slugCandidates rawSlug pkToSlug pks chain, c ∈ usedSlugs) →
    ensureAux rawSlug pkToSlug usedSlugs pks chain = .error "Slug collision" := by
  intro pks
  induction pks with
  | nil => intro chain _; rfl
  | cons opk rest ih =>
    intro chain hall
    rw [ensureAux]
    rw [slugCandidates] at hall
    by_cases hb : parentBase pkToSlug opk = ""
    · rw [if_pos hb]
      rw [if_pos hb] at hall
      exact ih chain hall
    · rw [if_neg hb]
      rw [if_neg hb] at hall
      rw [if_pos (hall _ (List.mem_cons_self _ _))]
      refine ih _ ?_
      intro c hc
      exact hall c (List.mem_cons_of_mem _ hc)

/-- A successful ensure_unique_slug result is never an already-used slug. -/
theorem ensure_ok_not_used (rawSlug : String) (parentPks : List (Option Nat))
    (pkToSlug : List (Nat × String)) (usedSlugs : List String) (s : String)
    (h : ensure_unique_slug rawSlug parentPks pkToSlug usedSlugs = .ok s) :
    s ∉ usedSlugs := by
  unfold ensure_unique_slug at h
  split at h
  · exact ensureAux_ok_not_used rawSlug pkToSlug usedSlugs parentPks [] s h
  · next hraw =>
    cases h
    exact hraw

end CsvJson

/-- C8: when the raw slug collides and prepending ancestor base slugs one
level at a time exhausts the chain without producing an unused composite,
ensure_unique_slug raises the ValueError (it never falls through); and in
general a successful result is never an already-used slug, so the run never
continues with a non-unique slug. -/
theorem C8_exhaustion_raises (rawSlug : String)
    (parentPks : List (Option Nat)) (pkToSlug : List (Nat × String))
    (usedSlugs : List String)
    (h1 : rawSlug ∈ usedSlugs)
    (h2 : ∀ c ∈ CsvJson.slugCandidates rawSlug pkToSlug parentPks [],
      c ∈ usedSlugs) :
    CsvJson.ensure_unique_slug rawSlug parentPks pkToSlug usedSlugs =
      .error "Slug collision" ∧
    (∀ (raw2 : String) (pks2 : List (Option Nat))
        (m2 : List (Nat × String)) (used2 : List String) (s : String),
      CsvJson.ensure_unique_slug raw2 pks2 m2 used2 = .ok s →
      s ∉ used2) := by
  constructor
  · unfold CsvJson.ensure_unique_slug
    rw [if_pos h1]
    exact CsvJson.ensureAux_exhausted rawSlug pkToSlug usedSlugs parentPks [] h2
  · intro raw2 pks2 m2 used2 s h
    exact CsvJson.ensure_ok_not_used raw2 pks2 m2 used2 s h

/-- C8 witness: a colliding raw slug with an exhausted (here empty) parent
chain makes the helper raise. -/
theorem C8_witness :
    CsvJson.ensure_unique_slug "a" [] [] ["a"] = .error "Slug collision" ∧
    (∀ (raw2 : String) (pks2 : List (Option Nat))
        (m2 : List (Nat × String)) (used2 : List String) (s : String),
      CsvJson.ensure_unique_slug raw2 pks2 m2 used2 = .ok s →
      s ∉ used2) :=
  C8_exhaustion_raises "a" [] [] ["a"] (by decide) (by decide)

namespace CsvJson

/-- childrenOf after consing one parent_map binding. -/
theorem childrenOf_cons (a : Nat) (l : List Nat)
    (pmm : List (Nat × List Nat)) (p : Nat) :
    childrenOf ((a, l) :: pmm) p = if a = p then l else childrenOf pmm p := by
  unfold childrenOf
  rw [afind_cons]
  split <;> rfl

/-- The invariant of one generate_categories call used for the has_data
correctness: every created category still has has_data 1 before the final
pass, pk numbers, parent references and current pointers stay below the
next pk, and parent_map registers per parent exactly the pks of the
categories created with that parent, in order. -/
structure Inv (st : GenState) : Prop where
  hd : ∀ c ∈ st.categories, c.has_data = 1
  pkLt : ∀ c ∈ st.categories, c.pk < st.next_pk
  parLt : ∀ c ∈ st.categories, ∀ p, c.parent = some p → p < st.next_pk
  curP : ∀ p, st.current_parent_pk = some p → p < st.next_pk
  curC : ∀ p, st.current_child_pk = some p → p < st.next_pk
  curG : ∀ p, st.current_grandchild_pk = some p → p < st.next_pk
  pm : ∀ p, childrenOf st.parent_map p =
    (st.categories.filter (fun c => c.parent = some p)).map Category.pk

/-- No category references the next pk as its parent. -/
theorem filter_next_nil (st : GenState) (hinv : Inv st) (q : Nat)
    (hq : st.next_pk ≤ q) :
    st.categories.filter (fun c => c.parent = some q) = [] := by
  rw [List.filter_eq_nil_iff]
  intro c hc
  simp only [decide_eq_true_eq]
  intro hpar
  exact absurd (hinv.parLt c hc q hpar) (Nat.not_lt.mpr hq)

/-- The shape of a successful addCat: the slug is fresh, the new category
is appended, parent_map gains the empty children list of the new pk (and
the new pk is appended to the children of its parent), the pk advances by
one, and the pointers and the data collections are untouched. -/
theorem addCat_spec (catType suffix : String) (st : GenState) (nm : String)
    (parentPks : List (Option Nat)) (parent : Option Nat) (srt : Nat)
    (root : Bool) (st2 : GenState)
    (h : addCat catType suffix st nm parentPks parent srt root = .ok st2) :
    ∃ uniq, uniq ∉ st.used_slugs ∧
      st2 = { st with
        next_pk := st.next_pk + 1,
        categories := st.categories ++
          [{ pk := st.next_pk, name := nm, slug := uniq, type := catType,
             parent := parent, has_data := 1, sort := srt,
             category_type := if root then some "ODISSI" else none }],
        parent_map := pmInsert st.parent_map st.next_pk parent,
        used_slugs := uniq :: st.used_slugs,
        pk_to_slug := (st.next_pk, uniq) :: st.pk_to_slug } := by
  unfold addCat at h
  cases hens : ensure_unique_slug (slugify nm ++ suffix) parentPks
      st.pk_to_slug st.used_slugs with
  | error e => rw [hens] at h; exact absurd h (by simp)
  | ok uniq =>
    rw [hens] at h
    refine ⟨uniq, ensure_ok_not_used _ _ _ _ uniq hens, ?_⟩
    injection h with h2
    exact h2.symm

/-- addCat preserves the invariant when the parent is below the next pk. -/
theorem addCat_Inv (catType suffix : String) (st : GenState) (nm : String)
    (parentPks : List (Option Nat)) (parent : Option Nat) (srt : Nat)
    (root : Bool) (st2 : GenState)
    (h : addCat catType suffix st nm parentPks parent srt root = .ok st2)
    (hinv : Inv st)
    (hp : ∀ p, parent = some p → p < st.next_pk) : Inv st2 := by
  obtain ⟨uniq, _, hst2⟩ := addCat_spec catType suffix st nm parentPks parent
    srt root st2 h
  subst hst2
  constructor
  · intro c hc
    rcases List.mem_append.mp hc with hc | hc
    · exact hinv.hd c hc
    · rw [List.mem_singleton.mp hc]
  · intro c hc
    rcases List.mem_append.mp hc with hc | hc
    · exact Nat.lt_succ_of_lt (hinv.pkLt c hc)
    · rw [List.mem_singleton.mp hc]
      exact Nat.lt_succ_self _
  · intro c hc p hpar
    rcases List.mem_append.mp hc with hc | hc
    · exact Nat.lt_succ_of_lt (hinv.parLt c hc p hpar)
    · rw [List.mem_singleton.mp hc] at hpar
      exact Nat.lt_succ_of_lt (hp p hpar)
  · intro p hcp
    exact Nat.lt_succ_of_lt (hinv.curP p hcp)
  · intro p hcp
    exact Nat.lt_succ_of_lt (hinv.curC p hcp)
  · intro p hcp
    exact Nat.lt_succ_of_lt (hinv.curG p hcp)
  · intro p
    simp only [List.filter_append, List.map_append]
    unfold pmInsert
    cases parent with
    | none =>
      rw [childrenOf_cons]
      by_cases hq : st.next_pk = p
      · subst hq
        rw [if_pos rfl, filter_next_nil st hinv st.next_pk (Nat.le_refl _)]
        simp
      · rw [if_neg hq, hinv.pm p]
        simp
    | some q =>
      have hqlt : q < st.next_pk := hp q rfl
      rw [childrenOf_cons]
      by_cases hq : st.next_pk = p
      · subst hq
        rw [if_pos rfl, filter_next_nil st hinv st.next_pk (Nat.le_refl _)]
        have : ¬ (some q = some st.next_pk) := by
          intro hcon
          exact absurd (Option.some_injective _ hcon ▸ hqlt)
            (Nat.lt_irrefl st.next_pk)
        simp [List.filter, this]
      · rw [if_neg hq, childrenOf_cons]
        by_cases hq2 : q = p
        · subst hq2
          rw [if_pos rfl, hinv.pm q]
          simp [List.filter]
        · rw [if_neg hq2, hinv.pm p]
          have : ¬ (some q = some p) := by
            intro hcon
            exact hq2 (Option.some_injective _ hcon)
          simp [List.filter, this]

end CsvJson

namespace CsvJson

/-- Pointer updates and unrelated field changes preserve the invariant when
the node-related fields are unchanged and the new pointers are bounded. -/
theorem Inv_of_fields (st st2 : GenState)
    (hc : st2.categories = st.categories)
    (hn : st2.next_pk = st.next_pk)
    (hpm : st2.parent_map = st.parent_map)
    (hP : ∀ p, st2.current_parent_pk = some p → p < st.next_pk)
    (hC : ∀ p, st2.current_child_pk = some p → p < st.next_pk)
    (hG : ∀ p, st2.current_grandchild_pk = some p → p < st.next_pk)
    (hinv : Inv st) : Inv st2 := by
  constructor
  · rw [hc]; exact hinv.hd
  · rw [hc, hn]; exact hinv.pkLt
  · rw [hc, hn]; exact hinv.parLt
  · rw [hn]; exact hP
  · rw [hn]; exact hC
  · rw [hn]; exact hG
  · rw [hc, hpm]; exact hinv.pm

/-- The LEVEL 1 block preserves the invariant. -/
theorem step1_Inv (catType suffix : String) (row : CsvRow)
    (st st2 : GenState) (h : step1 catType suffix row st = .ok st2)
    (hinv : Inv st) : Inv st2 := by
  unfold step1 at h
  by_cases he : pyStrip row.level1 = ""
  · rw [if_pos he] at h
    cases h
    exact hinv
  · rw [if_neg he] at h
    cases hadd : addCat catType suffix st (pyStrip row.level1) [] none
        st.sort_order_level1 true with
    | error e => rw [hadd] at h; exact absurd h (by simp)
    | ok stI =>
      rw [hadd] at h
      cases h
      have hI := addCat_Inv catType suffix st (pyStrip row.level1) [] none
        st.sort_order_level1 true stI hadd hinv (fun p hp => Option.noConfusion hp)
      obtain ⟨uniq, _, hshape⟩ := addCat_spec catType suffix st
        (pyStrip row.level1) [] none st.sort_order_level1 true stI hadd
      refine Inv_of_fields stI _ rfl rfl rfl ?_ ?_ ?_ hI
      · intro p hp
        simp only at hp
        rw [hshape]
        exact (Option.some_injective _ hp) ▸ Nat.lt_succ_self st.next_pk
      · intro p hp
        exact absurd hp (by simp)
      · intro p hp
        exact absurd hp (by simp)

/-- The LEVEL 2 block preserves the invariant. -/
theorem step2_Inv (catType suffix : String) (row : CsvRow)
    (st st2 : GenState) (h : step2 catType suffix row st = .ok st2)
    (hinv : Inv st) : Inv st2 := by
  unfold step2 at h
  cases hcp : st.current_parent_pk with
  | none => rw [hcp] at h; cases h; exact hinv
  | some p =>
    rw [hcp] at h
    dsimp only at h
    by_cases he : pyStrip row.level2 = ""
    · rw [if_pos he] at h
      cases h
      exact hinv
    · rw [if_neg he] at h
      cases hadd : addCat catType suffix st (pyStrip row.level2) [some p]
          (some p) ((childrenOf st.parent_map p).length + 1) false with
      | error e => rw [hadd] at h; exact absurd h (by simp)
      | ok stI =>
        rw [hadd] at h
        cases h
        have hplt : p < st.next_pk := hinv.curP p hcp
        have hI := addCat_Inv catType suffix st (pyStrip row.level2) [some p]
          (some p) ((childrenOf st.parent_map p).length + 1) false stI hadd
          hinv (fun q hq => (Option.some_injective _ hq) ▸ hplt)
        obtain ⟨uniq, _, hshape⟩ := addCat_spec catType suffix st
          (pyStrip row.level2) [some p] (some p)
          ((childrenOf st.parent_map p).length + 1) false stI hadd
        refine Inv_of_fields stI _ rfl rfl rfl ?_ ?_ ?_ hI
        · intro q hq
          exact hI.curP q hq
        · intro q hq
          have hq2 : st.next_pk = q := by simpa using hq
          subst hq2
          rw [hshape]
          exact Nat.lt_succ_self _
        · intro q hq
          exact absurd hq (by simp)

end CsvJson

namespace CsvJson

/-- The LEVEL 3 block preserves the invariant. -/
theorem step3_Inv (catType suffix : String) (row : CsvRow)
    (st st2 : GenState) (h : step3 catType suffix row st = .ok st2)
    (hinv : Inv st) : Inv st2 := by
  unfold step3 at h
  cases hcc : st.current_child_pk with
  | none => rw [hcc] at h; cases h; exact hinv
  | some c =>
    rw [hcc] at h
    dsimp only at h
    by_cases he : pyStrip row.level3 = ""
    · rw [if_pos he] at h
      cases h
      exact hinv
    · rw [if_neg he] at h
      cases hadd : addCat catType suffix st (pyStrip row.level3)
          [some c, st.current_parent_pk] (some c)
          ((childrenOf st.parent_map c).length + 1) false with
      | error e => rw [hadd] at h; exact absurd h (by simp)
      | ok stI =>
        rw [hadd] at h
        cases h
        have hclt : c < st.next_pk := hinv.curC c hcc
        have hI := addCat_Inv catType suffix st (pyStrip row.level3)
          [some c, st.current_parent_pk] (some c)
          ((childrenOf st.parent_map c).length + 1) false stI hadd hinv
          (fun q hq => (Option.some_injective _ hq) ▸ hclt)
        obtain ⟨uniq, _, hshape⟩ := addCat_spec catType suffix st
          (pyStrip row.level3) [some c, st.current_parent_pk] (some c)
          ((childrenOf st.parent_map c).length + 1) false stI hadd
        refine Inv_of_fields stI _ rfl rfl rfl ?_ ?_ ?_ hI
        · intro q hq
          exact hI.curP q hq
        · intro q hq
          exact hI.curC q hq
        · intro q hq
          have hq2 : st.next_pk = q := by simpa using hq
          subst hq2
          rw [hshape]
          exact Nat.lt_succ_self _

/-- The LEVEL 4 block preserves the invariant of its returned state. -/
theorem step4_Inv (catType suffix : String) (row : CsvRow)
    (st : GenState) (res : GenState × Option Nat)
    (h : step4 catType suffix row st = .ok res)
    (hinv : Inv st) : Inv res.1 := by
  unfold step4 at h
  cases hcg : st.current_grandchild_pk with
  | none =>
    rw [hcg] at h
    injection h with h2
    subst h2
    exact hinv
  | some g =>
    rw [hcg] at h
    dsimp only at h
    by_cases he : pyStrip row.level4 = ""
    · rw [if_pos he] at h
      injection h with h2
      subst h2
      exact hinv
    · rw [if_neg he] at h
      cases hadd : addCat catType suffix st (pyStrip row.level4)
          [some g, st.current_child_pk, st.current_parent_pk] (some g)
          ((childrenOf st.parent_map g).length + 1) false with
      | error e => rw [hadd] at h; exact absurd h (by simp)
      | ok stI =>
        rw [hadd] at h
        injection h with h2
        subst h2
        have hglt : g < st.next_pk := hinv.curG g hcg
        exact addCat_Inv catType suffix st (pyStrip row.level4)
          [some g, st.current_child_pk, st.current_parent_pk] (some g)
          ((childrenOf st.parent_map g).length + 1) false stI hadd hinv
          (fun q hq => (Option.some_injective _ hq) ▸ hglt)

/-- create_data_and_urls leaves the node-related fields untouched. -/
theorem create_data_and_urls_fixed (t d v : String) (p : Option Nat)
    (st : GenState) :
    (create_data_and_urls t d v p st).categories = st.categories ∧
    (create_data_and_urls t d v p st).next_pk = st.next_pk ∧
    (create_data_and_urls t d v p st).parent_map = st.parent_map ∧
    (create_data_and_urls t d v p st).current_parent_pk =
      st.current_parent_pk ∧
    (create_data_and_urls t d v p st).current_child_pk =
      st.current_child_pk ∧
    (create_data_and_urls t d v p st).current_grandchild_pk =
      st.current_grandchild_pk ∧
    (create_data_and_urls t d v p st).used_slugs = st.used_slugs :=
  ⟨rfl, rfl, rfl, rfl, rfl, rfl, rfl⟩

/-- The data section leaves the node-related fields untouched. -/
theorem dataSection_fixed (videoDir : String) (row : CsvRow)
    (finalPk : Option Nat) (st : GenState) :
    (dataSection videoDir row finalPk st).categories = st.categories ∧
    (dataSection videoDir row finalPk st).next_pk = st.next_pk ∧
    (dataSection videoDir row finalPk st).parent_map = st.parent_map ∧
    (dataSection videoDir row finalPk st).current_parent_pk =
      st.current_parent_pk ∧
    (dataSection videoDir row finalPk st).current_child_pk =
      st.current_child_pk ∧
    (dataSection videoDir row finalPk st).current_grandchild_pk =
      st.current_grandchild_pk ∧
    (dataSection videoDir row finalPk st).used_slugs = st.used_slugs := by
  unfold dataSection
  split <;> split <;> split <;>
    exact ⟨rfl, rfl, rfl, rfl, rfl, rfl, rfl⟩

/-- One whole row preserves the invariant. -/
theorem processCsvRow_Inv (catType suffix videoDir : String)
    (st st2 : GenState) (row : CsvRow)
    (h : processCsvRow catType suffix videoDir st row = .ok st2)
    (hinv : Inv st) : Inv st2 := by
  unfold processCsvRow at h
  cases h1 : step1 catType suffix row st with
  | error e => rw [h1] at h; exact absurd h (by simp)
  | ok s1 =>
    rw [h1] at h
    dsimp only at h
    cases h2 : step2 catType suffix row s1 with
    | error e => rw [h2] at h; exact absurd h (by simp)
    | ok s2 =>
      rw [h2] at h
      dsimp only at h
      cases h3 : step3 catType suffix row s2 with
      | error e => rw [h3] at h; exact absurd h (by simp)
      | ok s3 =>
        rw [h3] at h
        dsimp only at h
        cases h4 : step4 catType suffix row s3 with
        | error e => rw [h4] at h; exact absurd h (by simp)
        | ok s4 =>
          rw [h4] at h
          dsimp only at h
          injection h with h2b
          subst h2b
          have hi1 := step1_Inv catType suffix row st s1 h1 hinv
          have hi2 := step2_Inv catType suffix row s1 s2 h2 hi1
          have hi3 := step3_Inv catType suffix row s2 s3 h3 hi2
          have hi4 := step4_Inv catType suffix row s3 s4 h4 hi3
          obtain ⟨hc, hn, hpm, hP, hC, hG, _⟩ :=
            dataSection_fixed videoDir row s4.2 s4.1
          refine Inv_of_fields s4.1 _ hc hn hpm ?_ ?_ ?_ hi4
          · intro p hp; rw [hP] at hp; exact hi4.curP p hp
          · intro p hp; rw [hC] at hp; exact hi4.curC p hp
          · intro p hp; rw [hG] at hp; exact hi4.curG p hp

/-- The row fold preserves the invariant. -/
theorem foldRows_Inv (catType suffix videoDir : String)
    (rows : List CsvRow) :
    ∀ (st st2 : GenState),
    foldRows (processCsvRow catType suffix videoDir) st rows = .ok st2 →
    Inv st → Inv st2 := by
  induction rows with
  | nil =>
    intro st st2 h hinv
    cases h
    exact hinv
  | cons r rest ih =>
    intro st st2 h hinv
    unfold foldRows at h
    cases h1 : processCsvRow catType suffix videoDir st r with
    | error e => rw [h1] at h; exact absurd h (by simp)
    | ok s1 =>
      rw [h1] at h
      exact ih s1 st2 h (processCsvRow_Inv catType suffix videoDir st s1 r
        h1 hinv)

end CsvJson

namespace CsvJson

/-- The final pass changes neither pk nor parent nor slug of a record. -/
theorem finalizeCat_fixed (pmm : List (Nat × List Nat)) (c : Category) :
    (finalizeCat pmm c).pk = c.pk ∧ (finalizeCat pmm c).parent = c.parent ∧
    (finalizeCat pmm c).slug = c.slug := by
  unfold finalizeCat
  split <;> exact ⟨rfl, rfl, rfl⟩

/-- The fresh state of one generate_categories call satisfies the
invariant. -/
theorem Inv_init (startPk : Nat) (used : List String)
    (pkSlug : List (Nat × String)) (dataPk : Nat)
    (dataRecs : List CategoryData) (urlRecs : List DataUrl) :
    Inv { next_pk := startPk, categories := [], parent_map := [],
          used_slugs := used, pk_to_slug := pkSlug,
          current_parent_pk := none, current_child_pk := none,
          current_grandchild_pk := none, sort_order_level1 := 1,
          current_data_pk := dataPk, all_categories_data := dataRecs,
          all_categories_data_urls := urlRecs } := by
  constructor <;> simp [childrenOf, afind]

end CsvJson

/-- C4: in csv_to_json.py, after the final pass of generate_categories,
every CategoryNode with at least one other node referencing it as parent
has has_data 0 and every node with no children has has_data 1; the
statement holds for any threaded global state, hence for any table order. -/
theorem C4_has_data_finalization (catType suffix videoDir : String)
    (startPk : Nat) (used : List String) (pkSlug : List (Nat × String))
    (dataPk : Nat) (dataRecs : List CsvJson.CategoryData)
    (urlRecs : List CsvJson.DataUrl) (rows : List CsvJson.CsvRow)
    (st2 : CsvJson.GenState)
    (h : CsvJson.generate_categories catType suffix videoDir startPk used
      pkSlug dataPk dataRecs urlRecs rows = .ok st2) :
    ∀ c ∈ st2.categories,
      ((∃ c2 ∈ st2.categories, c2.parent = some c.pk) → c.has_data = 0) ∧
      ((∀ c2 ∈ st2.categories, c2.parent ≠ some c.pk) → c.has_data = 1) := by
  unfold CsvJson.generate_categories at h
  dsimp only at h
  cases hf : CsvJson.foldRows
      (CsvJson.processCsvRow catType suffix videoDir)
      { next_pk := startPk, categories := [], parent_map := [],
        used_slugs := used, pk_to_slug := pkSlug,
        current_parent_pk := none, current_child_pk := none,
        current_grandchild_pk := none, sort_order_level1 := 1,
        current_data_pk := dataPk, all_categories_data := dataRecs,
        all_categories_data_urls := urlRecs } rows with
  | error e => rw [hf] at h; exact absurd h (by simp)
  | ok stF =>
    rw [hf] at h
    injection h with h2
    subst h2
    have hinv : CsvJson.Inv stF :=
      CsvJson.foldRows_Inv catType suffix videoDir rows _ stF hf
        (CsvJson.Inv_init startPk used pkSlug dataPk dataRecs urlRecs)
    intro c hc
    obtain ⟨c0, hc0, hceq⟩ := List.mem_map.mp hc
    constructor
    · rintro ⟨c2, hc2, hpar⟩
      obtain ⟨c20, hc20, hc2eq⟩ := List.mem_map.mp hc2
      have hpar0 : c20.parent = some c0.pk := by
        rw [← (CsvJson.finalizeCat_fixed stF.parent_map c20).2.1, hc2eq,
          hpar, ← hceq, (CsvJson.finalizeCat_fixed stF.parent_map c0).1]
      have hmemf : c20 ∈ stF.categories.filter
          (fun c3 => c3.parent = some c0.pk) :=
        List.mem_filter.mpr ⟨hc20, by simp [hpar0]⟩
      have hlen : (CsvJson.childrenOf stF.parent_map c0.pk).length > 0 := by
        rw [hinv.pm c0.pk, List.length_map]
        exact List.length_pos.mpr (List.ne_nil_of_mem hmemf)
      rw [← hceq]
      unfold CsvJson.finalizeCat
      rw [if_pos hlen]
    · intro hnone
      have hnil : stF.categories.filter
          (fun c3 => c3.parent = some c0.pk) = [] := by
        rw [List.filter_eq_nil_iff]
        intro c3 hc3
        simp only [decide_eq_true_eq]
        intro hpar3
        refine hnone (CsvJson.finalizeCat stF.parent_map c3)
          (List.mem_map_of_mem _ hc3) ?_
        rw [(CsvJson.finalizeCat_fixed stF.parent_map c3).2.1, hpar3, ← hceq,
          (CsvJson.finalizeCat_fixed stF.parent_map c0).1]
      have hlen : ¬ (CsvJson.childrenOf stF.parent_map c0.pk).length > 0 := by
        rw [hinv.pm c0.pk, hnil]
        simp
      rw [← hceq]
      unfold CsvJson.finalizeCat
      rw [if_neg hlen]
      exact hinv.hd c0 hc0

namespace CsvJson

/-- The state produced by one generate_categories call on the single row
with levels A, B and a front file. -/
def wGen : GenState :=
  { next_pk := 4002,
    categories :=
      [{ pk := 4000, name := "A", slug := "a", type := "SEQUENCE",
         parent := none, has_data := 0, sort := 1,
         category_type := some "ODISSI" },
       { pk := 4001, name := "B", slug := "b", type := "SEQUENCE",
         parent := some 4000, has_data := 1, sort := 1,
         category_type := none }],
    parent_map := [(4001, []), (4000, [4001]), (4000, [])],
    used_slugs := ["b", "a"],
    pk_to_slug := [(4001, "b"), (4000, "a")],
    current_parent_pk := some 4000,
    current_child_pk := some 4001,
    current_grandchild_pk := none,
    sort_order_level1 := 2,
    current_data_pk := 7001,
    all_categories_data :=
      [{ pk := 7000, title := "B", category_id := some 4001,
         direction := "front" }],
    all_categories_data_urls :=
      [{ pk := 7000, path := "odissi/sequence/f.mp4", type := "video",
         category_data_id := 7000 }] }

/-- The driver accumulator produced by runAll on that one-row table. -/
def wAcc : RunAcc :=
  { all_categories := wGen.categories,
    current_pk := 4002,
    used_slugs := ["b", "a"],
    pk_to_slug := [(4001, "b"), (4000, "a")],
    current_data_pk := 7001,
    all_categories_data := wGen.all_categories_data,
    all_categories_data_urls := wGen.all_categories_data_urls }

end CsvJson

/-- The finalized record of node A in the concrete run. -/
def cjCatA : CsvJson.Category :=
  { pk := 4000, name := "A", slug := "a", type := "SEQUENCE",
    parent := none, has_data := 0, sort := 1,
    category_type := some "ODISSI" }

/-- The finalized record of node B in the concrete run. -/
def cjCatB : CsvJson.Category :=
  { pk := 4001, name := "B", slug := "b", type := "SEQUENCE",
    parent := some 4000, has_data := 1, sort := 1, category_type := none }

/-- C4 witness: on the concrete finalized output, the node A with child B
has has_data 0 and the childless node B has has_data 1. -/
theorem C4_witness : cjCatA.has_data = 0 ∧ cjCatB.has_data = 1 :=
  ⟨(C4_has_data_finalization "SEQUENCE" "" "odissi/sequence" 4000 [] []
      7000 [] [] [CsvJson.rowAB] CsvJson.wGen (by decide) cjCatA
      (by decide)).1 ⟨cjCatB, by decide, by decide⟩,
   (C4_has_data_finalization "SEQUENCE" "" "odissi/sequence" 4000 [] []
      7000 [] [] [CsvJson.rowAB] CsvJson.wGen (by decide) cjCatB
      (by decide)).2 (by decide)⟩

namespace CsvJson

/-- The slug invariant threaded through a run: the previously emitted slugs
together with the slugs of this call are duplicate-free, and all of them
are registered in used_slugs. -/
def SlugInv (prev : List String) (st : GenState) : Prop :=
  (prev ++ st.categories.map Category.slug).Nodup ∧
  ∀ s ∈ prev ++ st.categories.map Category.slug, s ∈ st.used_slugs

/-- The url back-reference invariant: every url record carries its own pk
as category_data_id. -/
def UrlInvP (st : GenState) : Prop :=
  ∀ u ∈ st.all_categories_data_urls, u.pk = u.category_data_id

/-- addCat preserves the slug invariant (the fresh slug is new) and the
data and url collections. -/
theorem addCat_aux (catType suffix : String) (st : GenState) (nm : String)
    (parentPks : List (Option Nat)) (parent : Option Nat) (srt : Nat)
    (root : Bool) (st2 : GenState) (prev : List String)
    (h : addCat catType suffix st nm parentPks parent srt root = .ok st2)
    (hs : SlugInv prev st) :
    SlugInv prev st2 ∧
    st2.all_categories_data_urls = st.all_categories_data_urls := by
  obtain ⟨uniq, hfresh, hshape⟩ := addCat_spec catType suffix st nm parentPks
    parent srt root st2 h
  subst hshape
  refine ⟨⟨?_, ?_⟩, rfl⟩
  · show (prev ++ (st.categories ++ [_]).map Category.slug).Nodup
    rw [List.map_append, ← List.append_assoc]
    rw [List.nodup_append]
    refine ⟨hs.1, List.nodup_singleton uniq, ?_⟩
    intro x hx hxu
    simp only [List.map_cons, List.map_nil, List.mem_singleton] at hxu
    subst hxu
    exact hfresh (hs.2 _ hx)
  · intro x hx
    show x ∈ uniq :: st.used_slugs
    rw [List.map_append, ← List.append_assoc] at hx
    rcases List.mem_append.mp hx with hx | hx
    · exact List.mem_cons_of_mem _ (hs.2 x hx)
    · simp only [List.map_cons, List.map_nil, List.mem_singleton] at hx
      rw [hx]
      exact List.mem_cons_self _ _

/-- The LEVEL 1 block preserves the slug invariant and the url records. -/
theorem step1_aux (catType suffix : String) (row : CsvRow)
    (st st2 : GenState) (prev : List String)
    (h : step1 catType suffix row st = .ok st2) (hs : SlugInv prev st) :
    SlugInv prev st2 ∧
    st2.all_categories_data_urls = st.all_categories_data_urls := by
  unfold step1 at h
  by_cases he : pyStrip row.level1 = ""
  · rw [if_pos he] at h
    cases h
    exact ⟨hs, rfl⟩
  · rw [if_neg he] at h
    cases hadd : addCat catType suffix st (pyStrip row.level1) [] none
        st.sort_order_level1 true with
    | error e => rw [hadd] at h; exact absurd h (by simp)
    | ok stI =>
      rw [hadd] at h
      cases h
      obtain ⟨hsI, hurlI⟩ := addCat_aux catType suffix st (pyStrip row.level1)
        [] none st.sort_order_level1 true stI prev hadd hs
      exact ⟨⟨hsI.1, hsI.2⟩, hurlI⟩

/-- The LEVEL 2 block preserves the slug invariant and the url records. -/
theorem step2_aux (catType suffix : String) (row : CsvRow)
    (st st2 : GenState) (prev : List String)
    (h : step2 catType suffix row st = .ok st2) (hs : SlugInv prev st) :
    SlugInv prev st2 ∧
    st2.all_categories_data_urls = st.all_categories_data_urls := by
  unfold step2 at h
  cases hcp : st.current_parent_pk with
  | none => rw [hcp] at h; cases h; exact ⟨hs, rfl⟩
  | some p =>
    rw [hcp] at h
    dsimp only at h
    by_cases he : pyStrip row.level2 = ""
    · rw [if_pos he] at h
      cases h
      exact ⟨hs, rfl⟩
    · rw [if_neg he] at h
      cases hadd : addCat catType suffix st (pyStrip row.level2) [some p]
          (some p) ((childrenOf st.parent_map p).length + 1) false with
      | error e => rw [hadd] at h; exact absurd h (by simp)
      | ok stI =>
        rw [hadd] at h
        cases h
        obtain ⟨hsI, hurlI⟩ := addCat_aux catType suffix st
          (pyStrip row.level2) [some p] (some p)
          ((childrenOf st.parent_map p).length + 1) false stI prev hadd hs
        exact ⟨⟨hsI.1, hsI.2⟩, hurlI⟩

/-- The LEVEL 3 block preserves the slug invariant and the url records. -/
theorem step3_aux (catType suffix : String) (row : CsvRow)
    (st st2 : GenState) (prev : List String)
    (h : step3 catType suffix row st = .ok st2) (hs : SlugInv prev st) :
    SlugInv prev st2 ∧
    st2.all_categories_data_urls = st.all_categories_data_urls := by
  unfold step3 at h
  cases hcc : st.current_child_pk with
  | none => rw [hcc] at h; cases h; exact ⟨hs, rfl⟩
  | some c =>
    rw [hcc] at h
    dsimp only at h
    by_cases he : pyStrip row.level3 = ""
    · rw [if_pos he] at h
      cases h
      exact ⟨hs, rfl⟩
    · rw [if_neg he] at h
      cases hadd : addCat catType suffix st (pyStrip row.level3)
          [some c, st.current_parent_pk] (some c)
          ((childrenOf st.parent_map c).length + 1) false with
      | error e => rw [hadd] at h; exact absurd h (by simp)
      | ok stI =>
        rw [hadd] at h
        cases h
        obtain ⟨hsI, hurlI⟩ := addCat_aux catType suffix st
          (pyStrip row.level3) [some c, st.current_parent_pk] (some c)
          ((childrenOf st.parent_map c).length + 1) false stI prev hadd hs
        exact ⟨⟨hsI.1, hsI.2⟩, hurlI⟩

/-- The LEVEL 4 block preserves the slug invariant and the url records. -/
theorem step4_aux (catType suffix : String) (row : CsvRow)
    (st : GenState) (res : GenState × Option Nat) (prev : List String)
    (h : step4 catType suffix row st = .ok res) (hs : SlugInv prev st) :
    SlugInv prev res.1 ∧
    res.1.all_categories_data_urls = st.all_categories_data_urls := by
  unfold step4 at h
  cases hcg : st.current_grandchild_pk with
  | none =>
    rw [hcg] at h
    injection h with h2
    subst h2
    exact ⟨hs, rfl⟩
  | some g =>
    rw [hcg] at h
    dsimp only at h
    by_cases he : pyStrip row.level4 = ""
    · rw [if_pos he] at h
      injection h with h2
      subst h2
      exact ⟨hs, rfl⟩
    · rw [if_neg he] at h
      cases hadd : addCat catType suffix st (pyStrip row.level4)
          [some g, st.current_child_pk, st.current_parent_pk] (some g)
          ((childrenOf st.parent_map g).length + 1) false with
      | error e => rw [hadd] at h; exact absurd h (by simp)
      | ok stI =>
        rw [hadd] at h
        injection h with h2
        subst h2
        exact addCat_aux catType suffix st (pyStrip row.level4)
          [some g, st.current_child_pk, st.current_parent_pk] (some g)
          ((childrenOf st.parent_map g).length + 1) false stI prev hadd hs

/-- create_data_and_urls preserves the slug invariant and appends one url
record whose pk equals its back-reference. -/
theorem create_data_and_urls_aux (t d v : String) (p : Option Nat)
    (st : GenState) (prev : List String) (hs : SlugInv prev st)
    (hu : UrlInvP st) :
    SlugInv prev (create_data_and_urls t d v p st) ∧
    UrlInvP (create_data_and_urls t d v p st) := by
  refine ⟨⟨hs.1, hs.2⟩, ?_⟩
  intro u hu2
  rcases List.mem_append.mp hu2 with hu2 | hu2
  · exact hu u hu2
  · rw [List.mem_singleton.mp hu2]

/-- The data section preserves the slug invariant and the url
back-reference invariant. -/
theorem dataSection_aux (videoDir : String) (row : CsvRow)
    (finalPk : Option Nat) (st : GenState) (prev : List String)
    (hs : SlugInv prev st) (hu : UrlInvP st) :
    SlugInv prev (dataSection videoDir row finalPk st) ∧
    UrlInvP (dataSection videoDir row finalPk st) := by
  unfold dataSection
  split
  · split
    · split
      · exact create_data_and_urls_aux _ _ _ _ _ prev
          (create_data_and_urls_aux _ _ _ _ _ prev
            (create_data_and_urls_aux _ _ _ _ _ prev hs hu).1
            (create_data_and_urls_aux _ _ _ _ _ prev hs hu).2).1
          (create_data_and_urls_aux _ _ _ _ _ prev
            (create_data_and_urls_aux _ _ _ _ _ prev hs hu).1
            (create_data_and_urls_aux _ _ _ _ _ prev hs hu).2).2
      · exact (create_data_and_urls_aux _ _ _ _ _ prev
          (create_data_and_urls_aux _ _ _ _ _ prev hs hu).1
          (create_data_and_urls_aux _ _ _ _ _ prev hs hu).2)
    · split
      · exact create_data_and_urls_aux _ _ _ _ _ prev
          (create_data_and_urls_aux _ _ _ _ _ prev hs hu).1
          (create_data_and_urls_aux _ _ _ _ _ prev hs hu).2
      · exact create_data_and_urls_aux _ _ _ _ _ prev hs hu
  · split
    · split
      · exact create_data_and_urls_aux _ _ _ _ _ prev
          (create_data_and_urls_aux _ _ _ _ _ prev hs hu).1
          (create_data_and_urls_aux _ _ _ _ _ prev hs hu).2
      · exact create_data_and_urls_aux _ _ _ _ _ prev hs hu
    · split
      · exact create_data_and_urls_aux _ _ _ _ _ prev hs hu
      · exact ⟨hs, hu⟩

end CsvJson

namespace CsvJson

/-- One whole row preserves the slug and url invariants. -/
theorem processCsvRow_aux (catType suffix videoDir : String)
    (st st2 : GenState) (row : CsvRow) (prev : List String)
    (h : processCsvRow catType suffix videoDir st row = .ok st2)
    (hs : SlugInv prev st) (hu : UrlInvP st) :
    SlugInv prev st2 ∧ UrlInvP st2 := by
  unfold processCsvRow at h
  cases h1 : step1 catType suffix row st with
  | error e => rw [h1] at h; exact absurd h (by simp)
  | ok s1 =>
    rw [h1] at h
    dsimp only at h
    cases h2 : step2 catType suffix row s1 with
    | error e => rw [h2] at h; exact absurd h (by simp)
    | ok s2 =>
      rw [h2] at h
      dsimp only at h
      cases h3 : step3 catType suffix row s2 with
      | error e => rw [h3] at h; exact absurd h (by simp)
      | ok s3 =>
        rw [h3] at h
        dsimp only at h
        cases h4 : step4 catType suffix row s3 with
        | error e => rw [h4] at h; exact absurd h (by simp)
        | ok s4 =>
          rw [h4] at h
          dsimp only at h
          injection h with h2b
          subst h2b
          obtain ⟨hsl1, hurl1⟩ := step1_aux catType suffix row st s1 prev h1 hs
          obtain ⟨hsl2, hurl2⟩ := step2_aux catType suffix row s1 s2 prev h2 hsl1
          obtain ⟨hsl3, hurl3⟩ := step3_aux catType suffix row s2 s3 prev h3 hsl2
          obtain ⟨hsl4, hurl4⟩ := step4_aux catType suffix row s3 s4 prev h4 hsl3
          have hu4 : UrlInvP s4.1 := by
            intro u hu2
            rw [hurl4, hurl3, hurl2, hurl1] at hu2
            exact hu u hu2
          exact dataSection_aux videoDir row s4.2 s4.1 prev hsl4 hu4

/-- The row fold preserves the slug and url invariants. -/
theorem foldRows_aux (catType suffix videoDir : String)
    (rows : List CsvRow) :
    ∀ (st st2 : GenState) (prev : List String),
    foldRows (processCsvRow catType suffix videoDir) st rows = .ok st2 →
    SlugInv prev st → UrlInvP st → SlugInv prev st2 ∧ UrlInvP st2 := by
  induction rows with
  | nil =>
    intro st st2 prev h hs hu
    cases h
    exact ⟨hs, hu⟩
  | cons r rest ih =>
    intro st st2 prev h hs hu
    unfold foldRows at h
    cases h1 : processCsvRow catType suffix videoDir st r with
    | error e => rw [h1] at h; exact absurd h (by simp)
    | ok s1 =>
      rw [h1] at h
      obtain ⟨hs1, hu1⟩ := processCsvRow_aux catType suffix videoDir st s1 r
        prev h1 hs hu
      exact ih s1 st2 prev h hs1 hu1

/-- The final pass preserves the slug list. -/
theorem finalize_slugs (pmm : List (Nat × List Nat)) (cats : List Category) :
    (finalizeHasData pmm cats).map Category.slug = cats.map Category.slug := by
  unfold finalizeHasData
  induction cats with
  | nil => rfl
  | cons c rest ih =>
    simp only [List.map_cons, ih]
    rw [(finalizeCat_fixed pmm c).2.2]

/-- One generate_categories call extends a duplicate-free slug history to
a longer duplicate-free history, all registered in the returned used
slugs, and preserves the url back-reference invariant. -/
theorem generate_categories_aux (catType suffix videoDir : String)
    (startPk : Nat) (used : List String) (pkSlug : List (Nat × String))
    (dataPk : Nat) (dataRecs : List CategoryData) (urlRecs : List DataUrl)
    (rows : List CsvRow) (st2 : GenState) (prev : List String)
    (h : generate_categories catType suffix videoDir startPk used pkSlug
      dataPk dataRecs urlRecs rows = .ok st2)
    (hnd : prev.Nodup) (hsub : ∀ s ∈ prev, s ∈ used)
    (hu : ∀ u ∈ urlRecs, u.pk = u.category_data_id) :
    (prev ++ st2.categories.map Category.slug).Nodup ∧
    (∀ s ∈ prev ++ st2.categories.map Category.slug, s ∈ st2.used_slugs) ∧
    (∀ u ∈ st2.all_categories_data_urls, u.pk = u.category_data_id) := by
  unfold generate_categories at h
  dsimp only at h
  cases hf : foldRows (processCsvRow catType suffix videoDir)
      { next_pk := startPk, categories := [], parent_map := [],
        used_slugs := used, pk_to_slug := pkSlug,
        current_parent_pk := none, current_child_pk := none,
        current_grandchild_pk := none, sort_order_level1 := 1,
        current_data_pk := dataPk, all_categories_data := dataRecs,
        all_categories_data_urls := urlRecs } rows with
  | error e => rw [hf] at h; exact absurd h (by simp)
  | ok stF =>
    rw [hf] at h
    injection h with h2
    subst h2
    have hinit : SlugInv prev
        { next_pk := startPk, categories := [], parent_map := [],
          used_slugs := used, pk_to_slug := pkSlug,
          current_parent_pk := none, current_child_pk := none,
          current_grandchild_pk := none, sort_order_level1 := 1,
          current_data_pk := dataPk, all_categories_data := dataRecs,
          all_categories_data_urls := urlRecs } := by
      constructor
      · simpa using hnd
      · simpa using hsub
    obtain ⟨hsF, huF⟩ := foldRows_aux catType suffix videoDir rows _ stF prev
      hf hinit hu
    refine ⟨?_, ?_, huF⟩
    · show (prev ++ (finalizeHasData stF.parent_map stF.categories).map
        Category.slug).Nodup
      rw [finalize_slugs]
      exact hsF.1
    · intro s hflag
      rw [show (prev ++ (finalizeHasData stF.parent_map
          stF.categories).map Category.slug) =
          prev ++ stF.categories.map Category.slug by rw [finalize_slugs]]
        at hflag
      exact hsF.2 s hflag

/-- The driver fold keeps the accumulated slugs duplicate-free and
registered, and the url records back-referencing their own pk. -/
theorem runTables_aux (tables : List TableSpec) :
    ∀ (acc acc2 : RunAcc), runTables acc tables = .ok acc2 →
    (acc.all_categories.map Category.slug).Nodup →
    (∀ s ∈ acc.all_categories.map Category.slug, s ∈ acc.used_slugs) →
    (∀ u ∈ acc.all_categories_data_urls, u.pk = u.category_data_id) →
    (acc2.all_categories.map Category.slug).Nodup ∧
    (∀ s ∈ acc2.all_categories.map Category.slug, s ∈ acc2.used_slugs) ∧
    (∀ u ∈ acc2.all_categories_data_urls, u.pk = u.category_data_id) := by
  induction tables with
  | nil =>
    intro acc acc2 h hnd hsub hu
    cases h
    exact ⟨hnd, hsub, hu⟩
  | cons tbl rest ih =>
    intro acc acc2 h hnd hsub hu
    unfold runTables runTable at h
    cases hg : generate_categories tbl.catType tbl.suffix tbl.videoDir
        acc.current_pk acc.used_slugs acc.pk_to_slug acc.current_data_pk
        acc.all_categories_data acc.all_categories_data_urls tbl.rows with
    | error e => rw [hg] at h; exact absurd h (by simp)
    | ok stT =>
      rw [hg] at h
      dsimp only at h
      obtain ⟨hnd2, hsub2, hu2⟩ := generate_categories_aux tbl.catType
        tbl.suffix tbl.videoDir acc.current_pk acc.used_slugs acc.pk_to_slug
        acc.current_data_pk acc.all_categories_data
        acc.all_categories_data_urls tbl.rows stT
        (acc.all_categories.map Category.slug) hg hnd hsub hu
      refine ih _ acc2 h ?_ ?_ ?_
      · show ((acc.all_categories ++ stT.categories).map Category.slug).Nodup
        rw [List.map_append]
        exact hnd2
      · intro s hflag
        show s ∈ stT.used_slugs
        rw [show (acc.all_categories ++ stT.categories).map Category.slug =
          acc.all_categories.map Category.slug ++
            stT.categories.map Category.slug from List.map_append _ _ _]
          at hflag
        exact hsub2 s hflag
      · exact hu2

end CsvJson

/-- C7 corrected scope: in csv_to_json.py (ensure_unique_slug plus the
used-slugs threading of the driver) the slugs of all CategoryNode records
of one whole run are pairwise distinct, for any list of tables. -/
theorem C7_global_slug_uniqueness (tables : List CsvJson.TableSpec)
    (acc : CsvJson.RunAcc) (h : CsvJson.runAll tables = .ok acc) :
    (acc.all_categories.map CsvJson.Category.slug).Nodup :=
  (CsvJson.runTables_aux tables _ acc h List.nodup_nil
    (fun s hs => absurd hs (by simp))
    (fun u hu => absurd hu (by simp))).1

/-- C7 witness: the run-wide slug list of a concrete one-table run is
duplicate-free. -/
theorem C7_witness :
    (CsvJson.wAcc.all_categories.map CsvJson.Category.slug).Nodup :=
  C7_global_slug_uniqueness
    [{ rows := [CsvJson.rowAB], catType := "SEQUENCE", suffix := "",
       videoDir := "odissi/sequence" }] CsvJson.wAcc (by decide)

/-- C10 amended scope: in csv_to_json.py (create_data_and_urls, textually
identical in csv_to_json_v2.py) every emitted CategoriesDataUrls record has
pk equal to its category_data_id, for any list of tables. -/
theorem C10_url_pk_backref (tables : List CsvJson.TableSpec)
    (acc : CsvJson.RunAcc) (h : CsvJson.runAll tables = .ok acc) :
    ∀ u ∈ acc.all_categories_data_urls, u.pk = u.category_data_id :=
  (CsvJson.runTables_aux tables _ acc h List.nodup_nil
    (fun s hs => absurd hs (by simp))
    (fun u hu => absurd hu (by simp))).2.2

/-- The url record of the concrete run. -/
def cjUrl : CsvJson.DataUrl :=
  { pk := 7000, path := "odissi/sequence/f.mp4", type := "video",
    category_data_id := 7000 }

/-- C10 witness: the url record of the concrete run back-references its own
pk. -/
theorem C10_witness : cjUrl.pk = cjUrl.category_data_id :=
  C10_url_pk_backref
    [{ rows := [CsvJson.rowAB], catType := "SEQUENCE", suffix := "",
       videoDir := "odissi/sequence" }] CsvJson.wAcc (by decide) cjUrl
    (by decide)
